import Mathlib

/-!
Verification of the AutoQA correlation pipeline against its specification.

The definitions below are shallow embeddings, translated function by
function from the repository sources:
  src/app/utils/parser.py        (extract_acceptance_criteria, find_linked_issue)
  src/app/utils/junit_parser.py  (parse_junit)
  src/app/utils/diff_utils.py    (extract_changed_symbols)
  src/app/utils/security.py      (verify_github_signature)
  src/app/services/checklist_service.py (ChecklistService._normalize_checklist)
  src/app/services/ci_mapper.py  (CIMapper._map_results_to_checklist, merge gate)
  src/app/services/merge_service.py (MergeService.attempt_merge)
  src/app/api/webhooks.py        (delivery-id deduplication cache)

Python strings are modelled as `List Char`; `bytes` values as `List Nat`
(byte values).  Python regular expressions are compiled by hand into
deterministic scanners that follow the leftmost / greedy-with-backtracking
semantics of the `re` module on the pattern actually used, restricted to
ASCII input (the `\s` class is modelled by the six ASCII whitespace
characters).  Floating point division in the compliance score is modelled
with rational numbers.
-/

namespace AutoQA

/-- ASCII whitespace, the characters matched by Python regular expression
class backslash-s and stripped by str.strip on ASCII text. -/
def pyWs (c : Char) : Bool :=
  c = ' ' || c = '\t' || c = '\n' || c = '\r' || c = Char.ofNat 11 || c = Char.ofNat 12

/-- Python str.strip with no argument: remove whitespace from both ends. -/
def pyStrip (l : List Char) : List Char :=
  ((l.dropWhile pyWs).reverse.dropWhile pyWs).reverse

/-- Python str.lower, character by character (faithful on ASCII input). -/
def lowerL (l : List Char) : List Char :=
  l.map Char.toLower

/-- Python substring test: `a in b` for strings, contiguous occurrence. -/
def isSub (a b : List Char) : Bool :=
  match b with
  | [] => a = []
  | _ :: t => a.isPrefixOf b || isSub a t

/-- Index of the first occurrence of `pat` as a contiguous sublist of `l`,
if any. -/
def firstOcc (pat : List Char) (l : List Char) : Option Nat :=
  match l with
  | [] => if pat = [] then some 0 else none
  | _ :: t =>
    if pat.isPrefixOf l then some 0
    else (firstOcc pat t).map (· + 1)

/-- Helper for `splitWs`: accumulates the current word in reverse. -/
def splitWsAux : List Char → List Char → List (List Char)
  | [], acc => if acc = [] then [] else [acc.reverse]
  | c :: t, acc =>
    if pyWs c then
      if acc = [] then splitWsAux t [] else acc.reverse :: splitWsAux t []
    else splitWsAux t (c :: acc)

/-- Split a character list on runs of whitespace, dropping empty pieces:
Python str.split with no argument. -/
def splitWs (l : List Char) : List (List Char) :=
  splitWsAux l []

/-- Strip the punctuation characters of str.strip at ci_mapper.py line 288
from both ends of a word. -/
def stripPunct (l : List Char) : List Char :=
  let p := fun c : Char => c = '.' || c = ',' || c = '!' || c = '?' || c = ';' || c = ':'
  ((l.dropWhile p).reverse.dropWhile p).reverse

/-! ## JUnit report normalizer (src/app/utils/junit_parser.py) -/

/-- An XML element as produced by ElementTree: tag, attributes, text and
child elements.  The defusedxml byte-level parsing is an external
collaborator; `parse_junit` is modelled from the element tree down. -/
inductive XElem where
  | mk (tag : String) (attrs : List (String × String)) (text : Option String)
      (children : List XElem)

/-- The element's tag. -/
def XElem.tag : XElem → String
  | .mk t _ _ _ => t

/-- The element's attribute list. -/
def XElem.attrs : XElem → List (String × String)
  | .mk _ a _ _ => a

/-- The element's text, `Element.text`. -/
def XElem.text : XElem → Option String
  | .mk _ _ t _ => t

/-- The element's direct children. -/
def XElem.children : XElem → List XElem
  | .mk _ _ _ c => c

/-- Attribute lookup `Element.get(key)`: first attribute with the given name. -/
def XElem.get (e : XElem) (key : String) : Option String :=
  (e.attrs.find? (fun a => a.1 = key)).map (fun a => a.2)

/-- Child lookup `Element.find(tag)`: the first direct child with the given tag. -/
def XElem.find (e : XElem) (t : String) : Option XElem :=
  e.children.find? (fun c => c.tag = t)

/-- Child query `Element.findall(tag)`: all direct children with the given tag. -/
def XElem.findallChild (e : XElem) (t : String) : List XElem :=
  e.children.filter (fun c => c.tag = t)

mutual
/-- All proper descendants of an element in document (preorder) order. -/
def XElem.descendants : XElem → List XElem
  | .mk _ _ _ ch => descendantsList ch
/-- Descendant closure of a list of elements, keeping document order. -/
def descendantsList : List XElem → List XElem
  | [] => []
  | c :: rest => c :: (XElem.descendants c ++ descendantsList rest)
end

/-- Descendant query `Element.findall('.//tag')`: descendants with the given tag, in
document order. -/
def XElem.findallDesc (e : XElem) (t : String) : List XElem :=
  e.descendants.filter (fun c => c.tag = t)

/-- Normalized test result.  `duration_raw` keeps the raw `time` attribute
when it is present and non-empty; the `float(...)` conversion of the
source is a floating-point operation kept out of the functional model. -/
structure TestResultModel where
  name : String
  classname : String
  status : String
  duration_raw : Option String
  failure_message : Option String
  failure_type : Option String
  system_out : Option String
  system_err : Option String
deriving DecidableEq

/-- The suite list chosen by `parse_junit` from the root element:
`testsuites` roots iterate their direct `testsuite` children (or the root
itself when there are none), a bare `testsuite` is its own suite, and any
other root falls back to descendant `testsuite` elements or itself. -/
def junitSuites (root : XElem) : List XElem :=
  if root.tag = "testsuites" then
    let l := root.findallChild "testsuite"
    if l.isEmpty then [root] else l
  else if root.tag = "testsuite" then [root]
  else
    let l := root.findallDesc "testsuite"
    if l.isEmpty then [root] else l

/-- The status/failure-message/failure-type triple computed for one
`testcase` element by `parse_junit` (lines 56-77 of junit_parser.py). -/
def junitStatusBlock (tc : XElem) : String × Option String × Option String :=
  match tc.find "failure" with
  | some failure => ("failed", failure.text, failure.get "type")
  | none =>
    match tc.find "error" with
    | some err => ("error", err.text, err.get "type")
    | none =>
      match tc.find "skipped" with
      | some _ => ("skipped", none, none)
      | none => ("passed", none, none)

/-- One normalized result for a `testcase` element owned by a suite with
name `suite_name`. -/
def junitTestcaseResult (suite_name : String) (tc : XElem) : TestResultModel :=
  let name := (tc.get "name").getD ""
  let classname :=
    match tc.get "classname" with
    | some c => if c = "" then suite_name else c
    | none => suite_name
  let duration :=
    match tc.get "time" with
    | some d => if d = "" then none else some d
    | none => none
  let sb := junitStatusBlock tc
  let system_out := (tc.find "system-out").bind XElem.text
  let system_err := (tc.find "system-err").bind XElem.text
  { name := name, classname := classname, status := sb.1,
    duration_raw := duration, failure_message := sb.2.1,
    failure_type := sb.2.2, system_out := system_out,
    system_err := system_err }

/-- The function `parse_junit` on an already-parsed element tree: for every suite, every
descendant `testcase` yields one normalized result. -/
def parse_junit (root : XElem) : List TestResultModel :=
  (junitSuites root).flatMap fun suite =>
    let suite_name := (suite.get "name").getD ""
    (suite.findallDesc "testcase").map (junitTestcaseResult suite_name)

/-- Status precedence exactly as worded in spec section 4.5: a `failure`
child is present, then `failed`; else an `error` child present, then
`error`; else a `skipped` child present, then `skipped`; else `passed`.
Presence is stated with `List.any` over the children, independently of the
source's `find`-based control flow. -/
def specStatus (tc : XElem) : String :=
  if tc.children.any (fun c => c.tag = "failure") then "failed"
  else if tc.children.any (fun c => c.tag = "error") then "error"
  else if tc.children.any (fun c => c.tag = "skipped") then "skipped"
  else "passed"

/-! ## Checklist items and merge (src/app/services/checklist_service.py) -/

/-- A checklist item as carried through the pipeline. -/
structure ChecklistItem where
  id : String
  description : String
  required : Bool
  tags : List String
deriving DecidableEq

/-- The required-flag keywords of `_normalize_checklist` (line 128). -/
def requiredKeywords : List String := ["must", "required", "shall", "need"]

/-- Tag assignment of `_normalize_checklist` (lines 131-137), driven by
keyword presence in the lowercased criteria text. -/
def heuristicTags (text : List Char) : List String :=
  let lo := lowerL text
  (if isSub "test".data lo then ["testing"] else []) ++
  (if isSub "validation".data lo || isSub "validate".data lo then ["validation"] else []) ++
  (if isSub "error".data lo || isSub "exception".data lo then ["error-handling"] else [])

/-- The heuristic checklist item appended when `items` already holds
`nItems` entries (lines 127-144): sequential id, keyword-driven
required flag and tags. -/
def heuristicItem (nItems : Nat) (text : String) : ChecklistItem :=
  { id := "C" ++ toString (nItems + 1),
    description := text,
    required := requiredKeywords.any (fun k => isSub k.data (lowerL text.data)),
    tags := heuristicTags text.data }

/-- The loop of `_normalize_checklist`: `existing` is the set
`existing_descriptions` computed once, before the loop, from the
LLM-sourced items only (line 118); it is never extended inside the loop. -/
def normalizeChecklistAux (existing : List (List Char)) :
    List ChecklistItem → List String → List ChecklistItem
  | items, [] => items
  | items, t :: rest =>
    let cl := lowerL t.data
    if existing.any (fun d => isSub cl d || isSub d cl) then
      normalizeChecklistAux existing items rest
    else
      normalizeChecklistAux existing (items ++ [heuristicItem items.length t]) rest

/-- The merge `ChecklistService._normalize_checklist`: LLM items verbatim first,
then heuristic texts filtered against the pre-loop description snapshot. -/
def normalize_checklist (criteria_texts : List String)
    (llm_checklist : List ChecklistItem) : List ChecklistItem :=
  normalizeChecklistAux (llm_checklist.map (fun it => lowerL it.description.data))
    llm_checklist criteria_texts

/-! ## Compliance correlator (src/app/services/ci_mapper.py) -/

/-- One entry of the stored test manifest, as read by
`_map_results_to_checklist` (`entry.get("name")`, `entry.get("checklist", [])`,
`entry.get("test_id")`). -/
structure ManifestTest where
  name : String
  checklist : List String
  test_id : Option String
deriving DecidableEq

/-- The verdict dictionary returned by `_map_results_to_checklist`.
`score` models the float division with a rational. -/
structure Compliance where
  score : ℚ
  required_passed : Nat
  required_total : Nat
  total_tests : Nat
  passed_tests : Nat
deriving DecidableEq

/-- Replace every non-overlapping occurrence of `pat` (left to right) by
`rep`: Python str.replace.  Structured with fuel so that it evaluates in
the kernel; the fuel is always sufficient because each step consumes at
least one character. -/
def replaceAllAux (pat rep : List Char) : Nat → List Char → List Char
  | 0, l => l
  | _ + 1, [] => []
  | fuel + 1, c :: t =>
    if pat ≠ [] && pat.isPrefixOf (c :: t) then
      rep ++ replaceAllAux pat rep fuel ((c :: t).drop pat.length)
    else
      c :: replaceAllAux pat rep fuel t

/-- Python str.replace on character lists. -/
def replaceAll (pat rep l : List Char) : List Char :=
  replaceAllAux pat rep l.length l

/-- The stopword list of `_fuzzy_match_checklist` (line 287). -/
def ciStopwords : List (List Char) :=
  ["the", "a", "an", "for", "and", "or", "but", "to", "of", "in", "on", "at"].map
    String.data

/-- The keyword set a checklist description contributes to fuzzy matching:
lowercased words, stopwords removed (checked before stripping), then
trailing/leading punctuation stripped (line 285-288). -/
def itemWords (description : List Char) : List (List Char) :=
  (splitWs (lowerL description)).filterMap fun w =>
    if w ∈ ciStopwords then none else some (stripPunct w)

/-- The keyword set of a test name: lowercase, drop `test_` markers, turn
underscores into spaces, split (line 282). -/
def testWords (test_name : List Char) : List (List Char) :=
  (splitWs (replaceAll "_".data " ".data
    (replaceAll "test_".data [] (lowerL test_name)))).dedup

/-- The matcher `CIMapper._fuzzy_match_checklist`: link a checklist item when the
distinct keyword overlap with the test name has size at least two. -/
def fuzzy_match_checklist (test_name : String) (checklist_items : List ChecklistItem) :
    List String :=
  checklist_items.filterMap fun item =>
    let common := (testWords test_name.data).filter (fun w => w ∈ itemWords item.description.data)
    if !common.isEmpty && decide (2 ≤ common.length) then some item.id else none

/-- The checklist ids attached to one test result (lines 219-231): ids of
the first manifest entry with a matching name, else (also when that entry
carries no ids) the fuzzy match. -/
def resultChecklistIds (manifest_tests : List ManifestTest)
    (checklist_items : List ChecklistItem) (r : TestResultModel) : List String :=
  let fromManifest :=
    match manifest_tests.find? (fun e => e.name = r.name) with
    | some e => e.checklist
    | none => []
  if fromManifest.isEmpty then fuzzy_match_checklist r.name checklist_items
  else fromManifest

/-- Whether one result covers at least one required checklist item
(lines 234-237). -/
def coversRequired (manifest_tests : List ManifestTest)
    (checklist_items : List ChecklistItem) (r : TestResultModel) : Bool :=
  let ids := resultChecklistIds manifest_tests checklist_items r
  checklist_items.any fun item => decide (item.id ∈ ids) && item.required

/-- The correlator `CIMapper._map_results_to_checklist`, verdict part (lines 211-265).
`required_passed` is incremented once per test result that passed and
covers a required item; the database writes are external side effects and
not part of the verdict. -/
def map_results_to_checklist (checklist_items : List ChecklistItem)
    (manifest_tests : List ManifestTest) (test_results : List TestResultModel) :
    Compliance :=
  let required_total : Nat := (checklist_items.filter (fun item => item.required)).length
  let required_passed : Nat := test_results.foldl
    (fun acc r =>
      if coversRequired manifest_tests checklist_items r && r.status == "passed" then
        acc + 1
      else acc) 0
  let score : ℚ :=
    if required_total > 0 then (required_passed : ℚ) / (required_total : ℚ) else 0
  { score := score,
    required_passed := required_passed,
    required_total := required_total,
    total_tests := test_results.length,
    passed_tests := (test_results.filter (fun t => t.status == "passed")).length }

/-! ## Merge gate (ci_mapper.py lines 104-110, merge_service.py) -/

/-- The auto-merge gate of `CIMapper.handle_workflow_run` line 105: the
merge service is invoked iff auto-merge is enabled and
`required_passed == required_total`.  There is no `required_total > 0`
condition in the source. -/
def mergeGate (auto_merge_enabled : Bool) (compliance : Compliance) : Bool :=
  auto_merge_enabled && (compliance.required_passed == compliance.required_total)

/-- Result of a merge attempt (merge_service.py dataclass). -/
structure MergeResult where
  success : Bool
  message : String
  sha : Option String
deriving DecidableEq

/-- The body of `MergeService.attempt_merge` with the installation id available at the
point of the provider call, and the reply `(merged, sha, message)` that
`github.merge_pr` would produce.  The second component of the result
records whether the provider merge endpoint was called. -/
def attempt_merge_core (auto_merge_enabled : Bool) (installation_id : Option Nat)
    (merge_reply : Bool × Option String × Option String) : MergeResult × Bool :=
  if !auto_merge_enabled then
    ({ success := false, message := "Auto-merge is disabled", sha := none }, false)
  else
    match installation_id with
    | none => ({ success := false, message := "Installation ID not available", sha := none }, false)
    | some _ =>
      if merge_reply.1 then
        ({ success := true, message := "PR merged successfully", sha := merge_reply.2.1 }, true)
      else
        ({ success := false, message := (merge_reply.2.2).getD "Merge failed", sha := none }, true)

/-- The function `MergeService.attempt_merge` as written: line 50 hardcodes
`installation_id = None`, so the provider branch is unreachable. -/
def attempt_merge (auto_merge_enabled : Bool)
    (merge_reply : Bool × Option String × Option String) : MergeResult × Bool :=
  attempt_merge_core auto_merge_enabled none merge_reply

/-! ## Delivery deduplication cache (src/app/api/webhooks.py lines 23-81) -/

/-- webhooks.py line 25. -/
def MAX_CACHE_SIZE : Nat := 10000

/-- One pass through the deduplication block (lines 72-81) for a present
delivery id.  The Python cache is a `set`; its contents are modelled as a
duplicate-free list in insertion order, and `set.pop()` — which removes an
arbitrary element — is modelled by an eviction choice `pick` giving the
index to remove.  Returns (was already processed, new cache contents). -/
def checkAndInsertDelivery (pick : List String → Nat) (cap : Nat)
    (st : List String) (id : String) : Bool × List String :=
  if id ∈ st then (true, st)
  else
    let st2 := st ++ [id]
    if st2.length > cap then (false, st2.eraseIdx (pick st2)) else (false, st2)

/-- Process a sequence of delivery ids through the cache. -/
def processDeliveries (pick : List String → Nat) (cap : Nat)
    (st : List String) (ids : List String) : List String :=
  ids.foldl (fun s i => (checkAndInsertDelivery pick cap s i).2) st

/-- An eviction choice `set.pop()` is free to make: remove the most
recently inserted element. -/
def pickNewest : List String → Nat := fun l => l.length - 1

/-! ## Linked issue resolution (src/app/utils/parser.py lines 62-113) -/

/-- Numeric value of a digit string, as Python `int`. -/
def digitsToNat (ds : List Char) : Nat :=
  ds.foldl (fun n c => n * 10 + (c.toNat - 48)) 0

/-- First match of the regular expression hash-digits: scan for a `#`
immediately followed by at least one digit, capture the maximal digit run. -/
def findHashNum : List Char → Option Nat
  | [] => none
  | c :: rest =>
    if c = '#' && !(rest.takeWhile Char.isDigit).isEmpty then
      some (digitsToNat (rest.takeWhile Char.isDigit))
    else findHashNum rest

/-- Case-insensitively drop `pat` from the front of `s`. -/
def ciDropPre (pat : List Char) (s : List Char) : Option (List Char) :=
  if lowerL (s.take pat.length) = pat then some (s.drop pat.length) else none

/-- Parse `#` followed by at least one digit at the front of `t`. -/
def hashDigitsHere (t : List Char) : Option Nat :=
  match t with
  | '#' :: r =>
    if (r.takeWhile Char.isDigit).isEmpty then none
    else some (digitsToNat (r.takeWhile Char.isDigit))
  | _ => none

/-- The close-keyword alternatives of parser.py line 84, in the order the
regex alternation with a greedy optional `s` tries them. -/
def closeKeywords : List (List Char) :=
  ["fixes", "fix", "closes", "close", "resolves", "resolve"].map String.data

/-- First match of close-keyword, whitespace, hash-digits (line 84). -/
def searchCloseWs : List Char → Option Nat
  | [] => none
  | c :: rest =>
    match closeKeywords.findSome? (fun kw =>
      (ciDropPre kw (c :: rest)).bind fun t =>
        let w := t.takeWhile pyWs
        if w.isEmpty then none else hashDigitsHere (t.drop w.length)) with
    | some n => some n
    | none => searchCloseWs rest

/-- First match of close-keyword, colon, optional whitespace, hash-digits
(line 85). -/
def searchCloseColon : List Char → Option Nat
  | [] => none
  | c :: rest =>
    match closeKeywords.findSome? (fun kw =>
      (ciDropPre kw (c :: rest)).bind fun t =>
        match t with
        | ':' :: t2 => hashDigitsHere (t2.drop (t2.takeWhile pyWs).length)
        | _ => none) with
    | some n => some n
    | none => searchCloseColon rest

/-- The first maximal digit run of a string.  For the branch pattern of
line 95 the optional `issue`/`fix` marker never changes the captured
digits: the first match's group is always the first digit run. -/
def firstDigitRun : List Char → Option (List Char)
  | [] => none
  | c :: t => if c.isDigit then some ((c :: t).takeWhile Char.isDigit) else firstDigitRun t

/-- First match of `issue`, optional `-`/`_`, digits (label pattern of
line 109). -/
def searchIssueLabel : List Char → Option Nat
  | [] => none
  | c :: rest =>
    match (ciDropPre "issue".data (c :: rest)).bind (fun t =>
      match t with
      | sep :: t2 =>
        if (sep = '-' || sep = '_') && !(t2.takeWhile Char.isDigit).isEmpty then
          some (digitsToNat (t2.takeWhile Char.isDigit))
        else if sep.isDigit then some (digitsToNat (t.takeWhile Char.isDigit))
        else none
      | [] => none) with
    | some n => some n
    | none => searchIssueLabel rest

/-- The resolver `find_linked_issue`: body hash reference, then body close clauses,
then branch digits, then commit hash references, then issue labels. -/
def find_linked_issue (pr_body : String) (pr_labels : List String)
    (branch_name : String) (commits : Option (List String)) : Option Nat :=
  let fromBody :=
    if pr_body.data.isEmpty then none
    else
      (findHashNum pr_body.data).orElse fun _ =>
        (searchCloseWs pr_body.data).orElse fun _ => searchCloseColon pr_body.data
  let fromBranch :=
    if branch_name.data.isEmpty then none
    else (firstDigitRun branch_name.data).map digitsToNat
  let fromCommits :=
    match commits with
    | none => none
    | some cs => cs.findSome? (fun (m : String) => findHashNum m.data)
  let fromLabels := pr_labels.findSome? (fun lab => searchIssueLabel lab.data)
  (fromBody.orElse fun _ => (fromBranch.orElse fun _ =>
    (fromCommits.orElse fun _ => fromLabels)))

/-! ## Diff analyzer (src/app/utils/diff_utils.py) -/

/-- A changed symbol extracted from a diff. -/
structure SymbolChange where
  name : String
  type : String
  file_path : String
  line_number : Option Nat
deriving DecidableEq

/-- The regex word class backslash-w on ASCII input. -/
def isWordChar (c : Char) : Bool :=
  c.isAlpha || c.isDigit || c = '_'

/-- Drop a literal (case-sensitive) from the front. -/
def litDrop (pat : List Char) (s : List Char) : Option (List Char) :=
  if pat.isPrefixOf s then some (s.drop pat.length) else none

/-- Drop a keyword followed by mandatory whitespace. -/
def dropKwWs (kw : List Char) (t : List Char) : Option (List Char) :=
  (litDrop kw t).bind fun u =>
    let w := u.takeWhile pyWs
    if w.isEmpty then none else some (u.drop w.length)

/-- Parse keyword, whitespace, captured word: the tail shared by the
`class NAME` and `function NAME` patterns. -/
def kwNameAfter (kw : List Char) (t : List Char) : Option (List Char) :=
  (dropKwWs kw t).bind fun v =>
    let name := v.takeWhile isWordChar
    if name.isEmpty then none else some name

/-- Pattern `^\+\s*(?:async\s+)?def\s+(\w+)\s*\(` continued after `def`: the
captured name must be followed by optional whitespace and an opening
parenthesis. -/
def afterDef (t : List Char) : Option (List Char) :=
  (dropKwWs "def".data t).bind fun v =>
    let name := v.takeWhile isWordChar
    if name.isEmpty then none
    else
      match ((v.drop name.length).dropWhile pyWs) with
      | '(' :: _ => some name
      | _ => none

/-- Python function pattern of diff_utils.py line 49 (`func_match`; the
`method_match` of line 51 is computed by the source but never used). -/
def pyFuncName (line : List Char) : Option (List Char) :=
  match line with
  | '+' :: r =>
    let t := r.dropWhile pyWs
    match (dropKwWs "async".data t).bind afterDef with
    | some n => some n
    | none => afterDef t
  | _ => none

/-- Python class pattern of line 50: `^\+\s*class\s+(\w+)`. -/
def pyClassName (line : List Char) : Option (List Char) :=
  match line with
  | '+' :: r => kwNameAfter "class".data (r.dropWhile pyWs)
  | _ => none

/-- JS function pattern of line 71:
`^\+\s*(?:export\s+)?(?:async\s+)?function\s+(\w+)`. -/
def jsFuncName (line : List Char) : Option (List Char) :=
  match line with
  | '+' :: r =>
    let t0 := r.dropWhile pyWs
    let t1 := (dropKwWs "export".data t0).getD t0
    let t2 := (dropKwWs "async".data t1).getD t1
    kwNameAfter "function".data t2
  | _ => none

/-- JS arrow pattern of line 72: `^\+\s*const\s+(\w+)\s*=\s*(?:async\s+)?\(`. -/
def jsArrowName (line : List Char) : Option (List Char) :=
  match line with
  | '+' :: r =>
    (dropKwWs "const".data (r.dropWhile pyWs)).bind fun u =>
      let name := u.takeWhile isWordChar
      if name.isEmpty then none
      else
        match (u.drop name.length).dropWhile pyWs with
        | '=' :: v2 =>
          let v3 := v2.dropWhile pyWs
          let v4 := (dropKwWs "async".data v3).getD v3
          match v4 with
          | '(' :: _ => some name
          | _ => none
        | _ => none
  | _ => none

/-- JS class pattern of line 73, textually identical to the Python class
pattern of line 50. -/
def jsClassName (line : List Char) : Option (List Char) :=
  pyClassName line

/-- The approximate line number: hunk start plus the global line index,
`None` when the recorded hunk start is missing or zero (falsy). -/
def diffLineNumber (hunk : Option Nat) (i : Nat) : Option Nat :=
  match hunk with
  | some h => if h = 0 then none else some (h + i)
  | none => none

/-- Symbols emitted by the Python if/elif cascade (lines 53-68). -/
def pyLineSymbols (line : List Char) (file : List Char) (hunk : Option Nat)
    (i : Nat) : List SymbolChange :=
  match pyFuncName line with
  | some n => [{ name := String.mk n, type := "function", file_path := String.mk file,
                 line_number := diffLineNumber hunk i }]
  | none =>
    match pyClassName line with
    | some n => [{ name := String.mk n, type := "class", file_path := String.mk file,
                   line_number := diffLineNumber hunk i }]
    | none => []

/-- Symbols emitted by the JS if/elif cascade (lines 75-98), run after the
Python cascade on the same line. -/
def jsLineSymbols (line : List Char) (file : List Char) (hunk : Option Nat)
    (i : Nat) : List SymbolChange :=
  match jsFuncName line with
  | some n => [{ name := String.mk n, type := "function", file_path := String.mk file,
                 line_number := diffLineNumber hunk i }]
  | none =>
    match jsArrowName line with
    | some n => [{ name := String.mk n, type := "function", file_path := String.mk file,
                   line_number := diffLineNumber hunk i }]
    | none =>
      match jsClassName line with
      | some n => [{ name := String.mk n, type := "class", file_path := String.mk file,
                     line_number := diffLineNumber hunk i }]
      | none => []

/-- All symbols one added line contributes: the Python cascade followed by
the JS cascade (two separate if/elif chains in the source). -/
def addedLineSymbols (line : List Char) (file : List Char) (hunk : Option Nat)
    (i : Nat) : List SymbolChange :=
  pyLineSymbols line file hunk i ++ jsLineSymbols line file hunk i

/-- File header `+++ b/<path>`: `\+\+\+\s+b/(.+)`. -/
def fileHeaderName (line : List Char) : Option (List Char) :=
  (litDrop "+++".data line).bind fun u =>
    let w := u.takeWhile pyWs
    if w.isEmpty then none
    else
      (litDrop "b/".data (u.drop w.length)).bind fun rest =>
        if rest.isEmpty then none else some rest

/-- Hunk header: `@@\s*-\d+,\d+\s*\+(\d+),\d+`, returning the post-image
start. -/
def hunkStart (line : List Char) : Option Nat :=
  (litDrop "@@".data line).bind fun u0 =>
    match u0.dropWhile pyWs with
    | '-' :: u1 =>
      let d1 := u1.takeWhile Char.isDigit
      if d1.isEmpty then none
      else
        match u1.drop d1.length with
        | ',' :: u2 =>
          let d2 := u2.takeWhile Char.isDigit
          if d2.isEmpty then none
          else
            match (u2.drop d2.length).dropWhile pyWs with
            | '+' :: u3 =>
              let d3 := u3.takeWhile Char.isDigit
              if d3.isEmpty then none
              else
                match u3.drop d3.length with
                | ',' :: u4 => if (u4.takeWhile Char.isDigit).isEmpty then none
                               else some (digitsToNat d3)
                | _ => none
            | _ => none
        | _ => none
    | _ => none

/-- Split on newline characters, Python str.split of line 30. -/
def splitNlAux : List Char → List Char → List (List Char)
  | [], acc => [acc.reverse]
  | c :: t, acc =>
    if c = '\n' then acc.reverse :: splitNlAux t [] else splitNlAux t (c :: acc)

/-- Split a text into its newline-separated lines. -/
def splitNl (l : List Char) : List (List Char) :=
  splitNlAux l []

/-- The scan of `extract_changed_symbols`, carrying the current target
file, the current hunk start and the global line index. -/
def extractSymbolsAux : List (List Char) → Option (List Char) → Option Nat → Nat →
    List SymbolChange
  | [], _, _, _ => []
  | line :: rest, cf, hs, i =>
    if "+++".data.isPrefixOf line then
      match fileHeaderName line with
      | some f => extractSymbolsAux rest (some f) none (i + 1)
      | none => extractSymbolsAux rest cf hs (i + 1)
    else if "@@".data.isPrefixOf line then
      match hunkStart line with
      | some h => extractSymbolsAux rest cf (some h) (i + 1)
      | none => extractSymbolsAux rest cf hs (i + 1)
    else if "+".data.isPrefixOf line then
      match cf with
      | some f => addedLineSymbols line f hs i ++ extractSymbolsAux rest cf hs (i + 1)
      | none => extractSymbolsAux rest cf hs (i + 1)
    else extractSymbolsAux rest cf hs (i + 1)

/-- The extractor `extract_changed_symbols` over a unified diff text. -/
def extract_changed_symbols (diff_text : String) : List SymbolChange :=
  extractSymbolsAux (splitNl diff_text.data) none none 0

/-! ## Criteria extractor (src/app/utils/parser.py lines 6-59)

The three section patterns and the two bullet patterns of
`extract_acceptance_criteria` are compiled by hand into deterministic
scanners following the leftmost, greedy-with-backtracking semantics of
`re.search`/`re.findall` with IGNORECASE and MULTILINE on those concrete
patterns. -/

/-- A bullet marker of the patterns: `-`, `*` or `•`. -/
def isBullet (c : Char) : Bool :=
  c = '-' || c = '*' || c = '•'

/-- Attempt the pattern `^[\s]*[-*•]\s+(.+)$` at the current position
(which the caller guarantees is a line start).  Returns the capture and
the number of characters the match consumes.  The leading whitespace class
and the whitespace after the bullet may cross newlines; the capture
cannot.  When everything after the bullet is whitespace the regex
backtracks and captures the last whitespace character, provided it is not
a newline and at least one whitespace character remains consumed. -/
def bulletAt (s : List Char) : Option (List Char × Nat) :=
  match s.drop (s.takeWhile pyWs).length with
  | [] => none
  | b :: rest2 =>
    if isBullet b then
      if (rest2.takeWhile pyWs).isEmpty then none
      else if (rest2.drop (rest2.takeWhile pyWs).length).isEmpty then
        match (rest2.takeWhile pyWs).reverse with
        | lc :: _ :: _ => if lc = '\n' then none else some ([lc], s.length)
        | _ => none
      else
        some ((rest2.drop (rest2.takeWhile pyWs).length).takeWhile (fun c => c ≠ '\n'),
          (s.takeWhile pyWs).length + 1 + (rest2.takeWhile pyWs).length +
            ((rest2.drop (rest2.takeWhile pyWs).length).takeWhile
              (fun c => c ≠ '\n')).length)
    else none

/-- Model of `re.findall` with MULTILINE of a line-anchored pattern given by
`matchAt`: scan character by character, attempting the pattern at every
line start, skipping the consumed region of each match. -/
def scanPattern (matchAt : List Char → Option (List Char × Nat)) :
    List Char → Nat → Bool → List (List Char)
  | [], _, _ => []
  | c :: rest, pending + 1, _ => scanPattern matchAt rest pending (c = '\n')
  | c :: rest, 0, lineStart =>
    if lineStart then
      match matchAt (c :: rest) with
      | some (cap, consumed) =>
        cap :: scanPattern matchAt rest (consumed - 1) (c = '\n')
      | none => scanPattern matchAt rest 0 (c = '\n')
    else scanPattern matchAt rest 0 (c = '\n')

/-- The requirement keywords of the fallback pattern (line 46). -/
def reqKeywords : List (List Char) :=
  ["must", "should", "need", "require", "ensure", "verify"].map String.data

/-- A requirement keyword occurs at the front, with at least one character
following it. -/
def kwFrontStrict (l : List Char) : Bool :=
  reqKeywords.any fun kw => kw.isPrefixOf (lowerL l) && decide (kw.length < l.length)

/-- A requirement keyword occurs somewhere in `l`, with at least one
character following it. -/
def kwOccStrictAux : List Char → Bool
  | [] => false
  | c :: t => kwFrontStrict (c :: t) || kwOccStrictAux t

/-- A requirement keyword occurs at an index of at least one, with at
least one character following it. -/
def kwOccMid (c0 : List Char) : Bool :=
  match c0 with
  | [] => false
  | _ :: t => kwOccStrictAux t

/-- Attempt the fallback pattern
`^[\s]*[-*•]\s+(.+?(?:must|should|need|require|ensure|verify).+)$`
(IGNORECASE) at a line start.  The capture must contain a keyword with at
least one character before it and one after it; when the keyword sits
right after the bullet whitespace, the regex backtracks one whitespace
character into the capture. -/
def fallbackAt (s : List Char) : Option (List Char × Nat) :=
  match s.drop (s.takeWhile pyWs).length with
  | [] => none
  | b :: rest2 =>
    if isBullet b then
      if (rest2.takeWhile pyWs).isEmpty then none
      else if (rest2.drop (rest2.takeWhile pyWs).length).isEmpty then none
      else if kwOccMid ((rest2.drop (rest2.takeWhile pyWs).length).takeWhile
          (fun c => c ≠ '\n')) then
        some ((rest2.drop (rest2.takeWhile pyWs).length).takeWhile (fun c => c ≠ '\n'),
          (s.takeWhile pyWs).length + 1 + (rest2.takeWhile pyWs).length +
            ((rest2.drop (rest2.takeWhile pyWs).length).takeWhile
              (fun c => c ≠ '\n')).length)
      else if kwFrontStrict ((rest2.drop (rest2.takeWhile pyWs).length).takeWhile
          (fun c => c ≠ '\n')) && decide (2 ≤ (rest2.takeWhile pyWs).length) then
        match (rest2.takeWhile pyWs).getLast? with
        | some lc =>
          if lc = '\n' then none
          else
            some (lc :: (rest2.drop (rest2.takeWhile pyWs).length).takeWhile
                (fun c => c ≠ '\n'),
              (s.takeWhile pyWs).length + 1 + (rest2.takeWhile pyWs).length +
                ((rest2.drop (rest2.takeWhile pyWs).length).takeWhile
                  (fun c => c ≠ '\n')).length)
        | none => none
      else none
    else none

/-- Keyword matcher for `Acceptance\s+Criteria` (case-insensitive),
returning the remainder after the keyword. -/
def kwMatchACri (t : List Char) : Option (List Char) :=
  (ciDropPre "acceptance".data t).bind fun u =>
    let w := u.takeWhile pyWs
    if w.isEmpty then none else ciDropPre "criteria".data (u.drop w.length)

/-- Keyword matcher for `AC` (case-insensitive). -/
def kwMatchAC (t : List Char) : Option (List Char) :=
  ciDropPre "ac".data t

/-- Keyword matcher for `Requirements` (case-insensitive). -/
def kwMatchReq (t : List Char) : Option (List Char) :=
  ciDropPre "requirements".data t

/-- After the keyword: `:?\s*\n([\s\S]*?)(?=\n##|\Z)`.  The optional colon
is consumed when present; the whitespace run must contain a newline and
the greedy star ends at the run's last newline; the non-greedy group runs
to the first `\n##` occurrence or to the end. -/
def headerTail (t2 : List Char) : Option (List Char) :=
  let t3 := match t2 with
            | ':' :: r => r
            | _ => t2
  let run := t3.takeWhile pyWs
  let lastSeg := (run.reverse.takeWhile (fun c => c ≠ '\n')).reverse
  if run.length = lastSeg.length then none
  else
    let content0 := t3.drop (run.length - lastSeg.length)
    some (content0.take ((firstOcc "\n##".data content0).getD content0.length))

/-- Attempt one section-header pattern at the current position: the
optional `##?\s*` marker is tried with two hashes, one hash, then without. -/
def headerAt (kwm : List Char → Option (List Char)) (s : List Char) :
    Option (List Char) :=
  let withTwo :=
    match s with
    | '#' :: '#' :: r => (kwm (r.dropWhile pyWs)).bind headerTail
    | _ => none
  let withOne :=
    match s with
    | '#' :: r => (kwm (r.dropWhile pyWs)).bind headerTail
    | _ => none
  (withTwo.orElse fun _ => withOne).orElse fun _ => (kwm s).bind headerTail

/-- Model of `re.search` of a section-header pattern: leftmost position at which
`headerAt` succeeds, returning the content group. -/
def searchHeader (kwm : List Char → Option (List Char)) :
    List Char → Option (List Char)
  | [] => headerAt kwm []
  | c :: rest =>
    match headerAt kwm (c :: rest) with
    | some g => some g
    | none => searchHeader kwm rest

/-- The pattern loop of lines 33-41: the first pattern that matches and
whose stripped content yields at least one raw bullet wins; its stripped
non-empty bullets are the criteria.  A pattern that matches but yields no
raw bullet does not break the loop. -/
def patTryList : List (List Char → Option (List Char)) → List Char → List (List Char)
  | [], _ => []
  | kwm :: rest, body =>
    match searchHeader kwm body with
    | some g =>
      let content := pyStrip g
      let raws := scanPattern bulletAt content 0 true
      if raws.isEmpty then patTryList rest body
      else (raws.map pyStrip).filter (fun b => !b.isEmpty)
    | none => patTryList rest body

/-- The case-insensitive first-seen deduplication loop of lines 52-57,
with the `seen` set modelled as the list of lowered items. -/
def dedupLower : List (List Char) → List (List Char) → List (List Char)
  | _, [] => []
  | seen, c :: rest =>
    if lowerL c ∈ seen then dedupLower seen rest
    else c :: dedupLower (lowerL c :: seen) rest

/-- The raw criteria before post-processing (lines 24-48): structured
section patterns, else the requirement-keyword fallback, with each match
stripped and empty strips dropped. -/
def rawCriteria (body : List Char) : List (List Char) :=
  let criteria := patTryList [kwMatchACri, kwMatchAC, kwMatchReq] body
  if criteria.isEmpty then
    ((scanPattern fallbackAt body 0 true).map pyStrip).filter (fun m => !m.isEmpty)
  else criteria

/-- The extractor `extract_acceptance_criteria` on a character list: the raw criteria,
keeping only items whose length is strictly greater than ten, then
case-insensitive first-seen deduplication. -/
def extractCriteriaL (body : List Char) : List (List Char) :=
  if body.isEmpty then []
  else dedupLower [] ((rawCriteria body).filter (fun c => decide (10 < c.length)))

/-- The extractor `extract_acceptance_criteria` on a Python string. -/
def extract_acceptance_criteria (issue_body : String) : List String :=
  (extractCriteriaL issue_body.data).map String.mk

/-- Render an item list as bullet lines, one `- item` line per item,
separated by newlines. -/
def renderBullets : List (List Char) → List Char
  | [] => []
  | [x] => '-' :: ' ' :: x
  | x :: y :: rest => ('-' :: ' ' :: x) ++ '\n' :: renderBullets (y :: rest)

/-! ## Webhook signature verification (src/app/utils/security.py)

`hashlib.sha256` and `hmac` are standard-library collaborators; they are
embedded concretely (FIPS 180-4 SHA-256 and RFC 2104 HMAC over byte
lists) so that `verify_github_signature` is executable.  Python `bytes`
are lists of naturals below 256; the header string is its list of
character code points (one byte per character for the latin-1 decoded
HTTP header). -/

/-- Addition modulo two to the thirty-two. -/
def add32 (a b : Nat) : Nat := (a + b) % 4294967296

/-- Right rotation of a 32-bit word. -/
def rotr32 (n x : Nat) : Nat :=
  ((x >>> n) ||| (x <<< (32 - n))) % 4294967296

/-- SHA-256 choice function. -/
def shaCh (x y z : Nat) : Nat := (x &&& y) ^^^ ((x ^^^ 4294967295) &&& z)

/-- SHA-256 majority function. -/
def shaMaj (x y z : Nat) : Nat := (x &&& y) ^^^ (x &&& z) ^^^ (y &&& z)

/-- SHA-256 big sigma 0. -/
def shaS0 (x : Nat) : Nat := rotr32 2 x ^^^ rotr32 13 x ^^^ rotr32 22 x

/-- SHA-256 big sigma 1. -/
def shaS1 (x : Nat) : Nat := rotr32 6 x ^^^ rotr32 11 x ^^^ rotr32 25 x

/-- SHA-256 small sigma 0. -/
def shaG0 (x : Nat) : Nat := rotr32 7 x ^^^ rotr32 18 x ^^^ (x >>> 3)

/-- SHA-256 small sigma 1. -/
def shaG1 (x : Nat) : Nat := rotr32 17 x ^^^ rotr32 19 x ^^^ (x >>> 10)

/-- The SHA-256 round constants of FIPS 180-4, written in decimal. -/
def shaK : List Nat :=
  [1116352408, 1899447441, 3049323471, 3921009573, 961987163, 1508970993,
   2453635748, 2870763221, 3624381080, 310598401, 607225278, 1426881987,
   1925078388, 2162078206, 2614888103, 3248222580, 3835390401, 4022224774,
   264347078, 604807628, 770255983, 1249150122, 1555081692, 1996064986,
   2554220882, 2821834349, 2952996808, 3210313671, 3336571891, 3584528711,
   113926993, 338241895, 666307205, 773529912, 1294757372, 1396182291,
   1695183700, 1986661051, 2177026350, 2456956037, 2730485921, 2820302411,
   3259730800, 3345764771, 3516065817, 3600352804, 4094571909, 275423344,
   430227734, 506948616, 659060556, 883997877, 958139571, 1322822218,
   1537002063, 1747873779, 1955562222, 2024104815, 2227730452, 2361852424,
   2428436474, 2756734187, 3204031479, 3329325298]

/-- The SHA-256 initial hash value of FIPS 180-4, written in decimal. -/
def shaH0 : List Nat :=
  [1779033703, 3144134277, 1013904242, 2773480762,
   1359893119, 2600822924, 528734635, 1541459225]

/-- Big-endian bytes of a number, `k` bytes wide. -/
def beBytes : Nat → Nat → List Nat
  | 0, _ => []
  | k + 1, n => ((n >>> (8 * k)) % 256) :: beBytes k n

/-- SHA-256 padding: a one bit, zeros to 56 modulo 64, then the bit
length as eight big-endian bytes. -/
def shaPad (msg : List Nat) : List Nat :=
  msg ++ 0x80 :: List.replicate ((119 - msg.length % 64) % 64) 0 ++
    beBytes 8 (msg.length * 8)

/-- Pack bytes into big-endian 32-bit words. -/
def bytesToWords : List Nat → List Nat
  | b0 :: b1 :: b2 :: b3 :: rest =>
    (((b0 % 256) <<< 24) ||| ((b1 % 256) <<< 16) ||| ((b2 % 256) <<< 8) ||| (b3 % 256)) ::
      bytesToWords rest
  | _ => []

/-- Split into 64-byte blocks; the fuel is always sufficient. -/
def chunks64Aux : Nat → List Nat → List (List Nat)
  | 0, _ => []
  | _ + 1, [] => []
  | fuel + 1, l => l.take 64 :: chunks64Aux fuel (l.drop 64)

/-- Split a byte list into 64-byte blocks. -/
def chunks64 (l : List Nat) : List (List Nat) :=
  chunks64Aux l.length l

/-- The next word of the SHA-256 message schedule. -/
def shaNextW (acc : List Nat) : Nat :=
  let n := acc.length
  add32 (add32 (shaG1 (acc.getD (n - 2) 0)) (acc.getD (n - 7) 0))
    (add32 (shaG0 (acc.getD (n - 15) 0)) (acc.getD (n - 16) 0))

/-- Extend 16 schedule words to 64. -/
def shaSchedule (ws : List Nat) : List Nat :=
  (List.range 48).foldl (fun acc _ => acc ++ [shaNextW acc]) ws

/-- One SHA-256 compression round. -/
def shaCompressStep (st : List Nat) (kw : Nat × Nat) : List Nat :=
  match st with
  | [a, b, c, d, e, f, g, h] =>
    let t1 := add32 (add32 (add32 h (shaS1 e)) (add32 (shaCh e f g) kw.1)) kw.2
    let t2 := add32 (shaS0 a) (shaMaj a b c)
    [add32 t1 t2, a, b, c, add32 d t1, e, f, g]
  | _ => st

/-- Compress one 64-byte block into the running hash state. -/
def shaCompressBlock (h : List Nat) (block : List Nat) : List Nat :=
  let ws := shaSchedule (bytesToWords block)
  let st := (shaK.zip ws).foldl shaCompressStep h
  (h.zip st).map fun p => add32 p.1 p.2

/-- SHA-256 of a byte list, as 32 bytes. -/
def sha256 (msg : List Nat) : List Nat :=
  ((chunks64 (shaPad msg)).foldl shaCompressBlock shaH0).flatMap (beBytes 4)

/-- HMAC-SHA-256 (RFC 2104, block size 64), as the `hmac` module computes
it for `digestmod=hashlib.sha256`. -/
def hmacSha256 (key msg : List Nat) : List Nat :=
  let k0 := if 64 < key.length then sha256 key else key
  let kp := k0 ++ List.replicate (64 - k0.length) 0
  sha256 ((kp.map fun b => b ^^^ 0x5c) ++
    sha256 ((kp.map fun b => b ^^^ 0x36) ++ msg))

/-- Byte value of a lowercase hexadecimal digit. -/
def hexChar (n : Nat) : Nat := if n < 10 then 48 + n else 87 + n

/-- Hex encoding `hexdigest()`: lowercase hex encoding, as header byte values. -/
def hexBytes (l : List Nat) : List Nat :=
  l.flatMap fun b => [hexChar (b / 16 % 16), hexChar (b % 16)]

/-- The byte values of the literal `sha256=`. -/
def sigMarker : List Nat := "sha256=".data.map Char.toNat

/-- Model of `hmac.compare_digest` on two str arguments: a constant-time equality
whose functional content is equality; both arguments must be ASCII-only,
otherwise the call raises TypeError (modelled as `Except.error`).  The
constant-time execution property itself is not representable in a
functional model. -/
def compare_digest (a b : List Nat) : Except Unit Bool :=
  if a.all (fun x => x < 128) && b.all (fun x => x < 128) then
    .ok (decide (a = b))
  else .error ()

/-- The verifier `verify_github_signature secret signature_header body`: reject headers
without the `sha256=` marker, then compare the computed hex digest with
the rest of the header. -/
def verify_github_signature (secret signature_header body : List Nat) :
    Except Unit Bool :=
  if !sigMarker.isPrefixOf signature_header then .ok false
  else
    compare_digest (hexBytes (hmacSha256 secret body)) (signature_header.drop 7)

/-- Flip bit `b` of the byte at index `i`. -/
def flipBitAt (i b : Nat) (l : List Nat) : List Nat :=
  l.set i ((l.getD i 0) ^^^ (2 ^ b))

/-- Flip the top bit of the first byte. -/
def flipFirstTop (l : List Nat) : List Nat :=
  match l with
  | [] => []
  | b :: r => (b ^^^ 128) :: r

/-! ## Spec-side companion definitions -/

/-- Spec-side companion of the `_normalize_checklist` loop: the heuristic
items appended when the loop starts with `n` items already present; a text
is skipped exactly when it stands in a case-insensitive substring relation
(either direction) with one of the descriptions in `existing`. -/
def heuristicAppended (existing : List (List Char)) (n : Nat) :
    List String → List ChecklistItem
  | [] => []
  | t :: rest =>
    if existing.any (fun d => isSub (lowerL t.data) d || isSub d (lowerL t.data)) then
      heuristicAppended existing n rest
    else heuristicItem n t :: heuristicAppended existing (n + 1) rest

/-- Spec-side count of C1: the number of distinct required checklist items
covered by at least one passed result. -/
def distinctRequiredCovered (checklist_items : List ChecklistItem)
    (manifest_tests : List ManifestTest) (test_results : List TestResultModel) : Nat :=
  ((checklist_items.filter (fun item => item.required)).filter (fun item =>
    test_results.any fun t =>
      t.status == "passed" &&
        decide (item.id ∈ resultChecklistIds manifest_tests checklist_items t))).length

/-- No `#`-digit reference starts inside `l` when the character following
`l` is `next`: spec-side description of "the body contains no earlier
hash reference". -/
def noEarlierRef : List Char → Char → Bool
  | [], _ => true
  | c :: t, next =>
    !(c = '#' && (match t with | [] => next | d :: _ => d).isDigit) &&
      noEarlierRef t next

end AutoQA

deriving instance DecidableEq for Except

set_option maxRecDepth 100000

namespace AutoQA

/-! ## Theorems -/

/-- A `find?` that fails means no element satisfies the predicate. -/
theorem any_false_of_find?_none {α : Type} {l : List α} {p : α → Bool}
    (h : l.find? p = none) : l.any p = false := by
  rw [List.any_eq_false]
  intro x hx
  exact List.find?_eq_none.mp h x hx

/-- C9.  The status normalization of `parse_junit` follows the
child-element precedence of spec section 4.5: the computed status of every
testcase equals the spec-side precedence function; every result of
`parse_junit` is the normalized image of one descendant testcase of one
selected suite; and any testcase with a `failure` child — in particular
one that also has a `skipped` child — classifies as `failed`. -/
theorem junit_status_precedence :
    (∀ tc : XElem, (junitStatusBlock tc).1 = specStatus tc) ∧
    (∀ root : XElem, ∀ r ∈ parse_junit root,
      ∃ suite ∈ junitSuites root, ∃ tc ∈ suite.findallDesc "testcase",
        r = junitTestcaseResult ((suite.get "name").getD "") tc) ∧
    (∀ tc : XElem, tc.children.any (fun c => c.tag = "failure") = true →
      (junitStatusBlock tc).1 = "failed") := by
  refine ⟨fun tc => ?_, fun root r hr => ?_, fun tc h => ?_⟩
  · unfold junitStatusBlock specStatus XElem.find
    rcases hf : List.find? (fun c => c.tag = "failure") tc.children with _ | f
    · rw [any_false_of_find?_none hf]
      rcases he : List.find? (fun c => c.tag = "error") tc.children with _ | e
      · rw [any_false_of_find?_none he]
        rcases hs : List.find? (fun c => c.tag = "skipped") tc.children with _ | s
        · rw [any_false_of_find?_none hs, hf, he, hs]
          simp
        · have := List.find?_some hs
          have hmem := List.mem_of_find?_eq_some hs
          have hany : tc.children.any (fun c => c.tag = "skipped") = true :=
            List.any_eq_true.mpr ⟨s, hmem, this⟩
          rw [hany, hf, he, hs]
          simp
      · have := List.find?_some he
        have hmem := List.mem_of_find?_eq_some he
        have hany : tc.children.any (fun c => c.tag = "error") = true :=
          List.any_eq_true.mpr ⟨e, hmem, this⟩
        rw [hany, hf, he]
        simp
    · have := List.find?_some hf
      have hmem := List.mem_of_find?_eq_some hf
      have hany : tc.children.any (fun c => c.tag = "failure") = true :=
        List.any_eq_true.mpr ⟨f, hmem, this⟩
      rw [hany, hf]
      simp
  · unfold parse_junit at hr
    rw [List.mem_flatMap] at hr
    obtain ⟨suite, hsuite, hr⟩ := hr
    rw [List.mem_map] at hr
    obtain ⟨tc, htc, rfl⟩ := hr
    exact ⟨suite, hsuite, tc, htc, rfl⟩
  · obtain ⟨x, hx, hpx⟩ := List.any_eq_true.mp h
    have hsome : (tc.children.find? (fun c => c.tag = "failure")).isSome :=
      List.find?_isSome.mpr ⟨x, hx, hpx⟩
    unfold junitStatusBlock XElem.find
    rcases hf : List.find? (fun c => c.tag = "failure") tc.children with _ | f
    · rw [hf] at hsome; simp at hsome
    · rw [hf]

/-- Witness for C9: a testcase carrying both a `failure` and a `skipped`
child classifies as `failed`, both at the status block and through
`parse_junit` on a full report tree. -/
theorem junit_status_precedence_witness :
    (junitStatusBlock (XElem.mk "testcase" [("name", "t1")] none
        [XElem.mk "failure" [("type", "AssertionError")] (some "boom") [],
         XElem.mk "skipped" [] none []])).1 = "failed" ∧
    (parse_junit (XElem.mk "testsuite" [("name", "s")] none
        [XElem.mk "testcase" [("name", "t1")] none
          [XElem.mk "failure" [("type", "AssertionError")] (some "boom") [],
           XElem.mk "skipped" [] none []]])).map TestResultModel.status = ["failed"] :=
  ⟨junit_status_precedence.2.2
    (XElem.mk "testcase" [("name", "t1")] none
      [XElem.mk "failure" [("type", "AssertionError")] (some "boom") [],
       XElem.mk "skipped" [] none []]) (by decide),
   by decide⟩

/-- The `_normalize_checklist` loop appends exactly the heuristic items
computed against the fixed `existing` snapshot. -/
theorem normalizeChecklistAux_eq_append (existing : List (List Char)) :
    ∀ (texts : List String) (items : List ChecklistItem),
      normalizeChecklistAux existing items texts =
        items ++ heuristicAppended existing items.length texts := by
  intro texts
  induction texts with
  | nil => intro items; simp [normalizeChecklistAux, heuristicAppended]
  | cons t rest ih =>
    intro items
    unfold normalizeChecklistAux heuristicAppended
    by_cases h : existing.any (fun d => isSub (lowerL t.data) d || isSub d (lowerL t.data))
    · simp only [h, if_true]
      exact ih items
    · simp only [h, if_false]
      rw [ih (items ++ [heuristicItem items.length t])]
      simp

/-- The descriptions appended by the heuristic loop are exactly the texts
that do not stand in a substring relation with a snapshot description. -/
theorem heuristicAppended_map_description (existing : List (List Char)) :
    ∀ (texts : List String) (n : Nat),
      (heuristicAppended existing n texts).map ChecklistItem.description =
        texts.filter (fun t =>
          !(existing.any (fun d => isSub (lowerL t.data) d || isSub d (lowerL t.data)))) := by
  intro texts
  induction texts with
  | nil => intro n; simp [heuristicAppended]
  | cons t rest ih =>
    intro n
    unfold heuristicAppended
    rw [List.filter_cons]
    cases hb : existing.any (fun d => isSub (lowerL t.data) d || isSub d (lowerL t.data)) with
    | true => simpa [hb] using ih n
    | false => simpa [hb, heuristicItem] using ih (n + 1)

/-- C7 (amended).  In the checklist merge the LLM items come first,
verbatim, and a heuristic text is appended iff it is not a
case-insensitive substring (in either direction) of one of the LLM
descriptions captured in the pre-loop snapshot; descriptions of heuristic
items appended earlier in the same merge are not consulted. -/
theorem normalize_checklist_snapshot (texts : List String)
    (llm : List ChecklistItem) :
    normalize_checklist texts llm =
      llm ++ heuristicAppended (llm.map (fun it => lowerL it.description.data))
        llm.length texts ∧
    (heuristicAppended (llm.map (fun it => lowerL it.description.data))
        llm.length texts).map ChecklistItem.description =
      texts.filter (fun t =>
        !((llm.map (fun it => lowerL it.description.data)).any
          (fun d => isSub (lowerL t.data) d || isSub d (lowerL t.data)))) := by
  constructor
  · unfold normalize_checklist
    exact normalizeChecklistAux_eq_append _ texts llm
  · exact heuristicAppended_map_description _ texts llm.length

/-- Counterexample for C7 as stated: with no LLM items, the text
`alpha beta` is appended and then `ALPHA beta gamma` is appended as well,
although the earlier heuristic description is a case-insensitive substring
of it — the claim required the second text to be skipped. -/
theorem normalize_checklist_snapshot_cex :
    (normalize_checklist ["alpha beta", "ALPHA beta gamma"] []).map
        ChecklistItem.description = ["alpha beta", "ALPHA beta gamma"] ∧
    isSub (lowerL "alpha beta".data) (lowerL "ALPHA beta gamma".data) = true := by
  decide

/-- A counting fold equals the length of the filtered list. -/
theorem foldl_count_eq_filter_length {α : Type} (p : α → Bool) :
    ∀ (l : List α) (n : Nat),
      l.foldl (fun acc x => if p x then acc + 1 else acc) n =
        n + (l.filter p).length := by
  intro l
  induction l with
  | nil => intro n; simp
  | cons x t ih =>
    intro n
    rw [List.foldl_cons, List.filter_cons]
    by_cases hp : p x = true
    · rw [if_pos hp, if_pos hp, ih, List.length_cons]
      omega
    · rw [if_neg hp, if_neg hp, ih]

/-- C1 (amended).  `required_passed` is the number of passed results that
cover at least one required item — counted once per passing result, so a
required item covered by several passing tests is counted several times;
`required_total` counts the required items; the score is the rational
`required_passed / required_total` (zero when there are no required
items), hence non-negative but not bounded by one; and the number of
distinct required items covered never exceeds `required_total`. -/
theorem map_results_per_passing_result (c : List ChecklistItem)
    (m : List ManifestTest) (r : List TestResultModel) :
    (map_results_to_checklist c m r).required_passed =
      (r.filter (fun t => coversRequired m c t && t.status == "passed")).length ∧
    (map_results_to_checklist c m r).required_total =
      (c.filter (fun it => it.required)).length ∧
    (map_results_to_checklist c m r).score =
      (if 0 < (map_results_to_checklist c m r).required_total
       then ((map_results_to_checklist c m r).required_passed : ℚ) /
         ((map_results_to_checklist c m r).required_total : ℚ)
       else 0) ∧
    0 ≤ (map_results_to_checklist c m r).score ∧
    distinctRequiredCovered c m r ≤ (map_results_to_checklist c m r).required_total := by
  refine ⟨?_, rfl, rfl, ?_, ?_⟩
  · unfold map_results_to_checklist
    simpa using foldl_count_eq_filter_length
      (fun t => coversRequired m c t && t.status == "passed") r 0
  · show (0 : ℚ) ≤ if _ then _ / _ else 0
    split
    · exact div_nonneg (Nat.cast_nonneg _) (Nat.cast_nonneg _)
    · exact le_refl 0
  · exact (List.filter_sublist _).length_le

/-- Counterexample for C1 as stated: one required item linked from two
manifest entries, both tests passed — `required_passed` is 2 although only
one distinct required item is covered, and the score is 2, outside
`[0, 1]`. -/
theorem map_results_double_count_cex :
    (map_results_to_checklist
        [⟨"C1", "validate email", true, []⟩]
        [⟨"t1", ["C1"], none⟩, ⟨"t2", ["C1"], none⟩]
        [⟨"t1", "", "passed", none, none, none, none, none⟩,
         ⟨"t2", "", "passed", none, none, none, none, none⟩]).required_passed = 2 ∧
    (map_results_to_checklist
        [⟨"C1", "validate email", true, []⟩]
        [⟨"t1", ["C1"], none⟩, ⟨"t2", ["C1"], none⟩]
        [⟨"t1", "", "passed", none, none, none, none, none⟩,
         ⟨"t2", "", "passed", none, none, none, none, none⟩]).required_total = 1 ∧
    (map_results_to_checklist
        [⟨"C1", "validate email", true, []⟩]
        [⟨"t1", ["C1"], none⟩, ⟨"t2", ["C1"], none⟩]
        [⟨"t1", "", "passed", none, none, none, none, none⟩,
         ⟨"t2", "", "passed", none, none, none, none, none⟩]).score = 2 ∧
    distinctRequiredCovered
        [⟨"C1", "validate email", true, []⟩]
        [⟨"t1", ["C1"], none⟩, ⟨"t2", ["C1"], none⟩]
        [⟨"t1", "", "passed", none, none, none, none, none⟩,
         ⟨"t2", "", "passed", none, none, none, none, none⟩] = 1 := by
  refine ⟨by decide, by decide, ?_, by decide⟩
  have hp : (map_results_to_checklist
      [⟨"C1", "validate email", true, []⟩]
      [⟨"t1", ["C1"], none⟩, ⟨"t2", ["C1"], none⟩]
      [⟨"t1", "", "passed", none, none, none, none, none⟩,
       ⟨"t2", "", "passed", none, none, none, none, none⟩]).required_passed = 2 := by
    decide
  have ht : (map_results_to_checklist
      [⟨"C1", "validate email", true, []⟩]
      [⟨"t1", ["C1"], none⟩, ⟨"t2", ["C1"], none⟩]
      [⟨"t1", "", "passed", none, none, none, none, none⟩,
       ⟨"t2", "", "passed", none, none, none, none, none⟩]).required_total = 1 := by
    decide
  have hs : (map_results_to_checklist
      [⟨"C1", "validate email", true, []⟩]
      [⟨"t1", ["C1"], none⟩, ⟨"t2", ["C1"], none⟩]
      [⟨"t1", "", "passed", none, none, none, none, none⟩,
       ⟨"t2", "", "passed", none, none, none, none, none⟩]).score =
      (if 0 < (map_results_to_checklist
          [⟨"C1", "validate email", true, []⟩]
          [⟨"t1", ["C1"], none⟩, ⟨"t2", ["C1"], none⟩]
          [⟨"t1", "", "passed", none, none, none, none, none⟩,
           ⟨"t2", "", "passed", none, none, none, none, none⟩]).required_total
       then ((map_results_to_checklist
          [⟨"C1", "validate email", true, []⟩]
          [⟨"t1", ["C1"], none⟩, ⟨"t2", ["C1"], none⟩]
          [⟨"t1", "", "passed", none, none, none, none, none⟩,
           ⟨"t2", "", "passed", none, none, none, none, none⟩]).required_passed : ℚ) /
         ((map_results_to_checklist
          [⟨"C1", "validate email", true, []⟩]
          [⟨"t1", ["C1"], none⟩, ⟨"t2", ["C1"], none⟩]
          [⟨"t1", "", "passed", none, none, none, none, none⟩,
           ⟨"t2", "", "passed", none, none, none, none, none⟩]).required_total : ℚ)
       else 0) := rfl
  rw [hs, hp, ht]
  norm_num

/-- C2 (amended).  The auto-merge gate of `handle_workflow_run` invokes
the merge service iff auto-merge is enabled and
`required_passed == required_total` — there is no `required_total > 0`
guard, so a checklist with zero required items (where both counts are 0)
does trigger a merge attempt.  Inside `MergeService.attempt_merge` the
provider merge endpoint is reached only with auto-merge enabled and an
installation id, and the call site hardcodes no installation id, so the
provider is never actually called and the attempt reports failure. -/
theorem merge_gate_characterization :
    (∀ (auto : Bool) (comp : Compliance),
      mergeGate auto comp = true ↔
        (auto = true ∧ comp.required_passed = comp.required_total)) ∧
    (∀ (auto : Bool) (inst : Option Nat) (reply : Bool × Option String × Option String),
      (attempt_merge_core auto inst reply).2 = true ↔ (auto = true ∧ inst ≠ none)) ∧
    (∀ (auto : Bool) (reply : Bool × Option String × Option String),
      (attempt_merge auto reply).2 = false ∧
        (attempt_merge auto reply).1.success = false) := by
  refine ⟨?_, ?_, ?_⟩
  · intro auto comp
    simp [mergeGate, Bool.and_eq_true, beq_iff_eq]
  · intro auto inst reply
    cases auto with
    | false => simp [attempt_merge_core]
    | true =>
      cases inst with
      | none => simp [attempt_merge_core]
      | some i =>
        cases hr : reply.1 with
        | true => simp [attempt_merge_core, hr]
        | false => simp [attempt_merge_core, hr]
  · intro auto reply
    cases auto with
    | false => simp [attempt_merge, attempt_merge_core]
    | true => simp [attempt_merge, attempt_merge_core]

/-- Witness for C2: the gate fires on a fully-compliant verdict, and the
merge attempt never reaches the provider. -/
theorem merge_gate_characterization_witness :
    mergeGate true ⟨1, 1, 1, 1, 1⟩ = true ∧
    (attempt_merge true (true, some "abc123", none)).2 = false :=
  ⟨(merge_gate_characterization.1 true ⟨1, 1, 1, 1, 1⟩).mpr ⟨rfl, rfl⟩,
   (merge_gate_characterization.2.2 true (true, some "abc123", none)).1⟩

/-- Counterexample for C2 as stated: with an empty checklist
(`required_total = 0`) and one passed test, the gate still invokes the
merge service when auto-merge is enabled. -/
theorem merge_gate_zero_required_cex :
    (map_results_to_checklist [] []
        [⟨"t1", "", "passed", none, none, none, none, none⟩]).required_total = 0 ∧
    (map_results_to_checklist [] []
        [⟨"t1", "", "passed", none, none, none, none, none⟩]).passed_tests = 1 ∧
    mergeGate true (map_results_to_checklist [] []
        [⟨"t1", "", "passed", none, none, none, none, none⟩]) = true := by
  decide

/-- Removing the appended last element restores the original list. -/
theorem eraseIdx_concat {α : Type} :
    ∀ (st : List α) (id : α), (st ++ [id]).eraseIdx st.length = st := by
  intro st
  induction st with
  | nil => intro id; rfl
  | cons a t ih => intro id; simp [List.eraseIdx, ih]

/-- Under eviction of the newest element, the head of the cache is
preserved by any further processing. -/
theorem processDeliveries_head_preserved (cap : Nat) :
    ∀ (ids : List String) (a : String) (t : List String),
      (processDeliveries pickNewest cap (a :: t) ids).head? = some a := by
  intro ids
  induction ids with
  | nil => intro a t; rfl
  | cons id rest ih =>
    intro a t
    show (processDeliveries pickNewest cap
      ((checkAndInsertDelivery pickNewest cap (a :: t) id).2) rest).head? = some a
    have key : ∃ t2, (checkAndInsertDelivery pickNewest cap (a :: t) id).2 = a :: t2 := by
      unfold checkAndInsertDelivery
      by_cases hmem : id ∈ a :: t
      · exact ⟨t, by simp [hmem]⟩
      · simp only [hmem, if_false]
        split
        · refine ⟨(t ++ [id]).eraseIdx t.length, ?_⟩
          have hidx : pickNewest (a :: t ++ [id]) = t.length + 1 := by
            simp [pickNewest]
          rw [hidx]
          rfl
        · exact ⟨t ++ [id], rfl⟩
    obtain ⟨t2, ht2⟩ := key
    rw [ht2]
    exact ih a t2

/-- C3.  The idempotency part of the claim holds for every eviction
choice: a fresh delivery id is reported as not a duplicate (and inserted),
and an id present in the cache is reported as a duplicate.  The
oldest-first eviction part does not: `set.pop()` may legally return the
most recently inserted element, and under that eviction choice the
earliest-inserted id `e` is still in the cache after arbitrarily many
further distinct insertions — in particular after `capacity + 1` total
insertions — so `e` is still reported as a duplicate, contradicting the
claimed oldest-first behavior (and the source's own `Remove oldest`
comment). -/
theorem delivery_cache_eviction_arbitrary :
    (∀ (pick : List String → Nat) (cap : Nat) (st : List String) (id : String),
      id ∉ st → (checkAndInsertDelivery pick cap st id).1 = false) ∧
    (∀ (pick : List String → Nat) (cap : Nat) (st : List String) (id : String),
      id ∈ st → (checkAndInsertDelivery pick cap st id).1 = true) ∧
    (∀ (cap : Nat), 1 ≤ cap → ∀ (e : String) (ids : List String),
      (checkAndInsertDelivery pickNewest cap
        (processDeliveries pickNewest cap [] (e :: ids)) e).1 = true) := by
  refine ⟨?_, ?_, ?_⟩
  · intro pick cap st id h
    unfold checkAndInsertDelivery
    simp only [h, if_false]
    split <;> rfl
  · intro pick cap st id h
    unfold checkAndInsertDelivery
    simp [h]
  · intro cap hcap e ids
    have hstep : processDeliveries pickNewest cap [] (e :: ids) =
        processDeliveries pickNewest cap [e] ids := by
      show processDeliveries pickNewest cap
        ((checkAndInsertDelivery pickNewest cap [] e).2) ids = _
      congr 1
      unfold checkAndInsertDelivery
      have h1 : e ∉ ([] : List String) := by simp
      simp only [h1, if_false, List.nil_append, List.length_cons, List.length_nil]
      rw [if_neg (by omega)]
    rw [hstep]
    have hhead := processDeliveries_head_preserved cap ids e []
    have hmem : e ∈ processDeliveries pickNewest cap [e] ids := by
      cases hfin : processDeliveries pickNewest cap [e] ids with
      | nil => rw [hfin] at hhead; simp at hhead
      | cons f rest =>
        rw [hfin] at hhead
        simp only [List.head?_cons, Option.some_inj] at hhead
        rw [hhead]
        exact List.mem_cons_self e rest
    unfold checkAndInsertDelivery
    simp [hmem]

/-- Witness for C3: with capacity 2 and four distinct ids, the earliest id
is still reported as a duplicate under newest-first eviction. -/
theorem delivery_cache_eviction_arbitrary_witness :
    (checkAndInsertDelivery pickNewest 2
      (processDeliveries pickNewest 2 [] ("d0" :: ["d1", "d2", "d3"])) "d0").1 = true :=
  delivery_cache_eviction_arbitrary.2.2 2 (by decide) "d0" ["d1", "d2", "d3"]

/-- C6 (amended).  Per added line the extractor runs two independent
if/elif cascades — the Python def/class cascade and the JS
function/const-arrow/class cascade — each emitting at most one
SymbolChange with first-match-wins semantics inside the cascade, so one
added line can emit up to two symbols (and a `class` line emits one in
each cascade, since the two class patterns are identical). -/
theorem diff_symbols_two_cascades :
    (∀ (line file : List Char) (hunk : Option Nat) (i : Nat),
      addedLineSymbols line file hunk i =
        pyLineSymbols line file hunk i ++ jsLineSymbols line file hunk i ∧
      (pyLineSymbols line file hunk i).length ≤ 1 ∧
      (jsLineSymbols line file hunk i).length ≤ 1 ∧
      (addedLineSymbols line file hunk i).length ≤ 2) ∧
    (∀ (line file : List Char) (hunk : Option Nat) (i : Nat) (n : List Char),
      pyFuncName line = some n →
      pyLineSymbols line file hunk i =
        [⟨String.mk n, "function", String.mk file, diffLineNumber hunk i⟩]) ∧
    (∀ (line file : List Char) (hunk : Option Nat) (i : Nat) (n : List Char),
      jsFuncName line = some n →
      jsLineSymbols line file hunk i =
        [⟨String.mk n, "function", String.mk file, diffLineNumber hunk i⟩]) := by
  refine ⟨fun line file hunk i => ?_, fun line file hunk i n h => ?_,
    fun line file hunk i n h => ?_⟩
  · refine ⟨rfl, ?_, ?_, ?_⟩
    · unfold pyLineSymbols
      rcases pyFuncName line with _ | n1
      · rcases pyClassName line with _ | n2 <;> simp
      · simp
    · unfold jsLineSymbols
      rcases jsFuncName line with _ | n1
      · rcases jsArrowName line with _ | n2
        · rcases jsClassName line with _ | n3 <;> simp
        · simp
      · simp
    · unfold addedLineSymbols
      rw [List.length_append]
      have h1 : (pyLineSymbols line file hunk i).length ≤ 1 := by
        unfold pyLineSymbols
        rcases pyFuncName line with _ | n1
        · rcases pyClassName line with _ | n2 <;> simp
        · simp
      have h2 : (jsLineSymbols line file hunk i).length ≤ 1 := by
        unfold jsLineSymbols
        rcases jsFuncName line with _ | n1
        · rcases jsArrowName line with _ | n2
          · rcases jsClassName line with _ | n3 <;> simp
          · simp
        · simp
      omega
  · unfold pyLineSymbols
    rw [h]
  · unfold jsLineSymbols
    rw [h]

/-- Witness for C6: a Python `def` line emits exactly its function symbol
in the Python cascade. -/
theorem diff_symbols_two_cascades_witness :
    pyLineSymbols "+def foo(x):".data "a.py".data (some 3) 2 =
      [⟨String.mk "foo".data, "function", String.mk "a.py".data,
        diffLineNumber (some 3) 2⟩] :=
  diff_symbols_two_cascades.2.1 "+def foo(x):".data "a.py".data (some 3) 2
    "foo".data (by decide)

/-- Counterexample for C6 as stated: the single added line `+class Foo:`
(after a `+++ b/a.py` header) matches both the Python class pattern and
the textually identical JS class pattern, so `extract_changed_symbols`
emits two SymbolChange entries for that one line — not at most one. -/
theorem diff_symbols_duplicate_class_cex :
    extract_changed_symbols "+++ b/a.py\n+class Foo:" =
      [⟨"Foo", "class", "a.py", none⟩, ⟨"Foo", "class", "a.py", none⟩] := by
  decide

/-- The digit run at the front of `digits ++ post` is exactly `digits`
when `digits` is all digits and `post` does not start with one. -/
theorem takeWhile_digits_append (digits post : List Char)
    (hdig : digits.all Char.isDigit = true)
    (hpost : (post.headD ' ').isDigit = false) :
    (digits ++ post).takeWhile Char.isDigit = digits := by
  induction digits with
  | nil =>
    cases post with
    | nil => rfl
    | cons p ps =>
      simp only [List.headD_cons] at hpost
      simp [List.takeWhile_cons, hpost]
  | cons d ds ih =>
    simp only [List.all_cons, Bool.and_eq_true] at hdig
    simp only [List.cons_append, List.takeWhile_cons, hdig.1]
    simp [ih hdig.2]

/-- The hash-digits scan finds the first reference: starting after any
prefix free of references, it returns the value of the digit run. -/
theorem findHashNum_split (digits post : List Char) (hne : digits ≠ [])
    (hdig : digits.all Char.isDigit = true)
    (hpost : (post.headD ' ').isDigit = false) :
    ∀ pre, noEarlierRef pre '#' = true →
      findHashNum (pre ++ '#' :: (digits ++ post)) = some (digitsToNat digits) := by
  intro pre
  induction pre with
  | nil =>
    intro _
    show findHashNum ('#' :: (digits ++ post)) = _
    unfold findHashNum
    rw [takeWhile_digits_append digits post hdig hpost]
    cases digits with
    | nil => exact absurd rfl hne
    | cons d ds => simp
  | cons c t ih =>
    intro hno
    unfold noEarlierRef at hno
    rw [Bool.and_eq_true] at hno
    have hrest := ih hno.2
    show findHashNum (c :: (t ++ '#' :: (digits ++ post))) = _
    unfold findHashNum
    by_cases hc : c = '#'
    · subst hc
      have hnext : (match t with | [] => '#' | d :: _ => d).isDigit = false := by
        rcases hno.1 with h1
        rw [Bool.not_eq_true'] at h1
        rw [Bool.and_eq_false_iff] at h1
        rcases h1 with h1 | h1
        · simp at h1
        · exact h1
      have hempty : ((t ++ '#' :: (digits ++ post)).takeWhile Char.isDigit).isEmpty = true := by
        cases t with
        | nil =>
          simp only [List.nil_append, List.takeWhile_cons]
          simp only at hnext
          simp [hnext]
        | cons d ts =>
          simp only at hnext
          simp [List.takeWhile_cons, hnext]
      rw [hempty]
      simp only [Bool.and_false, Bool.not_true, if_false]
      exact hrest
    · rw [if_neg (by simp [hc])]
      exact hrest

/-- C10.  When the PR body contains a hash-digit reference, linked-issue
resolution returns the value of the first such reference, for every value
of the labels, branch name and commit messages — those are consulted only
when the body has no reference at all; in particular a later
Fixes/Closes/Resolves clause naming a different number is ignored. -/
theorem find_linked_issue_first_ref (body : String) (labels : List String)
    (branch : String) (commits : Option (List String))
    (pre digits post : List Char)
    (hsplit : body.data = pre ++ '#' :: (digits ++ post)) (hne : digits ≠ [])
    (hdig : digits.all Char.isDigit = true)
    (hpost : (post.headD ' ').isDigit = false)
    (hfirst : noEarlierRef pre '#' = true) :
    find_linked_issue body labels branch commits = some (digitsToNat digits) := by
  have hfind := findHashNum_split digits post hne hdig hpost pre hfirst
  unfold find_linked_issue
  rw [hsplit]
  have hempty : (pre ++ '#' :: (digits ++ post)).isEmpty = false := by
    cases pre <;> rfl
  rw [hempty]
  simp only [Bool.false_eq_true, if_false, hfind, Option.orElse]

/-- Witness for C10: the first reference `#12` wins over the later
`fixes #34` clause and over labels, branch and commits. -/
theorem find_linked_issue_first_ref_witness :
    find_linked_issue "See #12 ok, fixes #34" ["issue-9"] "fix-7" (some ["#5"]) =
      some 12 := by
  rw [find_linked_issue_first_ref "See #12 ok, fixes #34" ["issue-9"] "fix-7"
    (some ["#5"]) "See ".data "12".data " ok, fixes #34".data
    (by decide) (by decide) (by decide) (by decide) (by decide)]
  decide

/-- Big-endian byte strings have the requested width. -/
theorem beBytes_length : ∀ (k n : Nat), (beBytes k n).length = k := by
  intro k
  induction k with
  | zero => intro n; rfl
  | succ k ih => intro n; simp [beBytes, ih]

/-- Big-endian byte strings hold bytes. -/
theorem beBytes_lt_256 : ∀ (k n b : Nat), b ∈ beBytes k n → b < 256 := by
  intro k
  induction k with
  | zero => intro n b h; simp [beBytes] at h
  | succ k ih =>
    intro n b h
    rcases List.mem_cons.mp h with h | h
    · rw [h]; exact Nat.mod_lt _ (by omega)
    · exact ih n b h

/-- One compression round preserves the state width. -/
theorem shaCompressStep_length (st : List Nat) (kw : Nat × Nat) :
    (shaCompressStep st kw).length = st.length := by
  unfold shaCompressStep
  split <;> rfl

/-- Folding compression rounds preserves the state width. -/
theorem foldl_shaCompressStep_length :
    ∀ (pairs : List (Nat × Nat)) (st : List Nat),
      (pairs.foldl shaCompressStep st).length = st.length := by
  intro pairs
  induction pairs with
  | nil => intro st; rfl
  | cons p t ih =>
    intro st
    rw [List.foldl_cons, ih, shaCompressStep_length]

/-- Block compression keeps an eight-word state. -/
theorem shaCompressBlock_length (h : List Nat) (block : List Nat)
    (hl : h.length = 8) : (shaCompressBlock h block).length = 8 := by
  unfold shaCompressBlock
  rw [List.length_map, List.length_zip, foldl_shaCompressStep_length, hl]
  simp

/-- Folding block compressions keeps an eight-word state. -/
theorem foldl_shaCompressBlock_length :
    ∀ (blocks : List (List Nat)) (h : List Nat), h.length = 8 →
      (blocks.foldl shaCompressBlock h).length = 8 := by
  intro blocks
  induction blocks with
  | nil => intro h hl; exact hl
  | cons b t ih =>
    intro h hl
    rw [List.foldl_cons]
    exact ih _ (shaCompressBlock_length h b hl)

/-- Serializing words to big-endian bytes quadruples the length. -/
theorem flatMap_beBytes_length :
    ∀ (l : List Nat), (l.flatMap (beBytes 4)).length = 4 * l.length := by
  intro l
  induction l with
  | nil => rfl
  | cons x t ih =>
    rw [List.flatMap_cons, List.length_append, beBytes_length, ih,
      List.length_cons]
    ring

/-- SHA-256 digests are 32 bytes long. -/
theorem sha256_length (msg : List Nat) : (sha256 msg).length = 32 := by
  unfold sha256
  rw [flatMap_beBytes_length, foldl_shaCompressBlock_length _ _ (by rfl)]

/-- SHA-256 digests hold bytes. -/
theorem sha256_lt_256 (msg : List Nat) : ∀ b ∈ sha256 msg, b < 256 := by
  intro b hb
  unfold sha256 at hb
  rcases List.mem_flatMap.mp hb with ⟨w, _, hw⟩
  exact beBytes_lt_256 4 w b hw

/-- Hex encoding doubles the length. -/
theorem hexBytes_length : ∀ (l : List Nat), (hexBytes l).length = 2 * l.length := by
  intro l
  induction l with
  | nil => rfl
  | cons x t ih =>
    have he : hexBytes (x :: t) =
        hexChar (x / 16 % 16) :: hexChar (x % 16) :: hexBytes t := rfl
    rw [he, List.length_cons, List.length_cons, ih, List.length_cons]
    ring

/-- Hex digits are ASCII. -/
theorem hexChar_lt_128 (k : Nat) (h : k < 16) : hexChar k < 128 := by
  unfold hexChar
  split <;> omega

/-- Hex encodings are ASCII byte strings. -/
theorem hexBytes_lt_128 : ∀ (l : List Nat), ∀ b ∈ hexBytes l, b < 128 := by
  intro l
  induction l with
  | nil => intro b hb; simp [hexBytes] at hb
  | cons x t ih =>
    intro b hb
    rcases List.mem_cons.mp hb with h | hb
    · rw [h]; exact hexChar_lt_128 _ (Nat.mod_lt _ (by omega))
    · rcases List.mem_cons.mp hb with h | hb
      · rw [h]; exact hexChar_lt_128 _ (Nat.mod_lt _ (by omega))
      · exact ih b hb

/-- Hex digits decode uniquely. -/
theorem hexChar_inj (a b : Nat) (ha : a < 16) (hb : b < 16)
    (h : hexChar a = hexChar b) : a = b := by
  unfold hexChar at h
  split at h <;> split at h <;> omega

/-- Hex encoding is injective on byte strings. -/
theorem hexBytes_inj : ∀ (l1 l2 : List Nat), (∀ b ∈ l1, b < 256) →
    (∀ b ∈ l2, b < 256) → hexBytes l1 = hexBytes l2 → l1 = l2 := by
  intro l1
  induction l1 with
  | nil =>
    intro l2 _ _ h
    cases l2 with
    | nil => rfl
    | cons y t => simp [hexBytes] at h
  | cons x t ih =>
    intro l2 h1 h2 h
    cases l2 with
    | nil => simp [hexBytes] at h
    | cons y s =>
      have hx : x < 256 := h1 x (List.mem_cons_self x t)
      have hy : y < 256 := h2 y (List.mem_cons_self y s)
      simp only [hexBytes, List.flatMap_cons, List.cons_append, List.nil_append,
        List.cons.injEq] at h
      obtain ⟨e1, e2, e3⟩ := h
      have d1 : x / 16 % 16 = y / 16 % 16 :=
        hexChar_inj _ _ (Nat.mod_lt _ (by omega)) (Nat.mod_lt _ (by omega)) e1
      have d2 : x % 16 = y % 16 :=
        hexChar_inj _ _ (Nat.mod_lt _ (by omega)) (Nat.mod_lt _ (by omega)) e2
      have hxy : x = y := by omega
      have ht : t = s := ih s (fun b hb => h1 b (List.mem_cons_of_mem x hb))
        (fun b hb => h2 b (List.mem_cons_of_mem y hb)) e3
      rw [hxy, ht]

/-- HMAC digests are SHA-256 digests: 32 bytes of byte values. -/
theorem hmacSha256_length (key msg : List Nat) :
    (hmacSha256 key msg).length = 32 := by
  unfold hmacSha256
  exact sha256_length _

/-- HMAC digests hold bytes. -/
theorem hmacSha256_lt_256 (key msg : List Nat) :
    ∀ b ∈ hmacSha256 key msg, b < 256 := by
  unfold hmacSha256
  exact sha256_lt_256 _

/-- Updating a list of small values with a small value keeps them small. -/
theorem all_lt_set : ∀ (l : List Nat) (i v : Nat),
    (∀ x ∈ l, x < 128) → v < 128 → ∀ x ∈ l.set i v, x < 128 := by
  intro l
  induction l with
  | nil => intro i v _ _ x hx; simp at hx
  | cons a t ih =>
    intro i v hall hv x hx
    cases i with
    | zero =>
      rcases List.mem_cons.mp hx with h | h
      · rw [h]; exact hv
      · exact hall x (List.mem_cons_of_mem a h)
    | succ j =>
      rcases List.mem_cons.mp hx with h | h
      · rw [h]; exact hall a (List.mem_cons_self a t)
      · exact ih j v (fun y hy => hall y (List.mem_cons_of_mem a hy)) hv x h

/-- Setting an in-range index to a different value changes the list. -/
theorem set_ne_of_ne : ∀ (l : List Nat) (i v : Nat), i < l.length →
    v ≠ l.getD i 0 → l.set i v ≠ l := by
  intro l
  induction l with
  | nil => intro i v h; simp at h
  | cons a t ih =>
    intro i v hi hv
    cases i with
    | zero =>
      intro hcon
      simp only [List.set] at hcon
      exact hv (by simpa using congrArg (fun l => l.headD 0) hcon)
    | succ j =>
      intro hcon
      simp only [List.set, List.cons.injEq] at hcon
      exact ih j v (by simpa using hi) (by simpa using hv) hcon.2

/-- Flipping a bit of a value changes it. -/
theorem xor_pow_ne (x b : Nat) : x ^^^ 2 ^ b ≠ x := by
  intro h
  have h2 : (x ^^^ 2 ^ b) ^^^ x = 0 := by rw [h, Nat.xor_self]
  rw [Nat.xor_comm x (2 ^ b), Nat.xor_assoc, Nat.xor_self, Nat.xor_zero] at h2
  exact absurd h2 (Nat.pos_iff_ne_zero.mp (Nat.pos_pow_of_pos b (by omega)))

/-- The marker is a prefix of any header built from it. -/
theorem sigMarker_isPrefixOf_append (x : List Nat) :
    sigMarker.isPrefixOf (sigMarker ++ x) = true := by
  rw [List.isPrefixOf_iff_prefix]
  exact List.prefix_append _ _

/-- Dropping the seven marker bytes of a built header leaves the digest. -/
theorem drop7_append (x : List Nat) : (sigMarker ++ x).drop 7 = x := by
  have h : sigMarker.length = 7 := rfl
  rw [← h, List.drop_left]

/-- An all-below-128 list passes the Boolean ASCII check. -/
theorem all_lt128_eq_true (l : List Nat) (h : ∀ b ∈ l, b < 128) :
    (l.all fun x => decide (x < 128)) = true :=
  List.all_eq_true.mpr fun x hx => decide_eq_true (h x hx)

/-- On ASCII inputs `compare_digest` is the decidable equality. -/
theorem compare_digest_ok (a b : List Nat) (ha : ∀ x ∈ a, x < 128)
    (hb : ∀ x ∈ b, x < 128) : compare_digest a b = .ok (decide (a = b)) := by
  unfold compare_digest
  rw [if_pos]
  rw [Bool.and_eq_true]
  exact ⟨all_lt128_eq_true a ha, all_lt128_eq_true b hb⟩

/-- Verification of a marker-plus-digest header reduces to the digest
comparison. -/
theorem verify_append_digest (secret body d : List Nat) :
    verify_github_signature secret (sigMarker ++ d) body =
      compare_digest (hexBytes (hmacSha256 secret body)) d := by
  unfold verify_github_signature
  rw [sigMarker_isPrefixOf_append, drop7_append, Bool.not_true,
    if_neg Bool.false_ne_true]

/-- C4 (amended).  The verifier accepts the correctly signed header for
every secret and body.  The hex digest is 64 ASCII characters; flipping
one of the low seven bits of any digest character yields false (the
character stays ASCII but differs), while flipping the top bit produces a
non-ASCII character on which `compare_digest` raises instead of returning
false (see the counterexample).  A header not starting with `sha256=` —
in particular any other algorithm prefix — yields false without the HMAC
being compared, and a body change yields false whenever it changes the
HMAC value.  The constant-time property of the comparison is delegated to
the library and has no functional content. -/
theorem verify_signature_behaviour :
    (∀ secret body : List Nat,
      verify_github_signature secret
        (sigMarker ++ hexBytes (hmacSha256 secret body)) body = .ok true) ∧
    (∀ secret body : List Nat, (hexBytes (hmacSha256 secret body)).length = 64) ∧
    (∀ (secret body : List Nat) (i b : Nat), b < 7 → i < 64 →
      verify_github_signature secret
        (sigMarker ++ flipBitAt i b (hexBytes (hmacSha256 secret body))) body =
        .ok false) ∧
    (∀ secret header body : List Nat, sigMarker.isPrefixOf header = false →
      verify_github_signature secret header body = .ok false) ∧
    (∀ secret body1 body2 : List Nat,
      hmacSha256 secret body1 ≠ hmacSha256 secret body2 →
      verify_github_signature secret
        (sigMarker ++ hexBytes (hmacSha256 secret body1)) body2 = .ok false) := by
  have hlen : ∀ secret body : List Nat,
      (hexBytes (hmacSha256 secret body)).length = 64 := by
    intro secret body
    rw [hexBytes_length, hmacSha256_length]
  refine ⟨?_, hlen, ?_, ?_, ?_⟩
  · intro secret body
    rw [verify_append_digest,
      compare_digest_ok _ _ (hexBytes_lt_128 _) (hexBytes_lt_128 _)]
    simp
  · intro secret body i b hb hi
    rw [verify_append_digest]
    set d := hexBytes (hmacSha256 secret body) with hd
    have hdall : ∀ x ∈ d, x < 128 := hexBytes_lt_128 _
    have hvlt : d.getD i 0 ^^^ 2 ^ b < 128 := by
      have h1 : d.getD i 0 < 128 := by
        have hil : i < d.length := by rw [hlen secret body]; exact hi
        have hget : d.getD i 0 = d[i] := List.getD_eq_getElem d 0 hil
        rw [hget]
        exact hdall _ (List.getElem_mem hil)
      have h2 : (2 : Nat) ^ b < 128 := by
        calc (2 : Nat) ^ b ≤ 2 ^ 6 := Nat.pow_le_pow_right (by omega) (by omega)
        _ < 128 := by omega
      have := Nat.xor_lt_two_pow (n := 7) (by simpa using h1) (by simpa using h2)
      simpa using this
    have hflip : flipBitAt i b d ≠ d := by
      apply set_ne_of_ne
      · rw [hlen secret body]; exact hi
      · exact xor_pow_ne _ _
    show compare_digest d (d.set i (d.getD i 0 ^^^ 2 ^ b)) = .ok false
    rw [compare_digest_ok _ _ hdall
      (all_lt_set d i _ hdall hvlt)]
    have hdec : decide (d = d.set i (d.getD i 0 ^^^ 2 ^ b)) = false :=
      decide_eq_false fun h => hflip h.symm
    rw [hdec]
  · intro secret header body h
    unfold verify_github_signature
    rw [h]
    rfl
  · intro secret body1 body2 h
    rw [verify_append_digest,
      compare_digest_ok _ _ (hexBytes_lt_128 _) (hexBytes_lt_128 _)]
    have hne : hexBytes (hmacSha256 secret body2) ≠
        hexBytes (hmacSha256 secret body1) := by
      intro heq
      exact (Ne.symm h) (hexBytes_inj _ _ (hmacSha256_lt_256 _ _)
        (hmacSha256_lt_256 _ _) heq)
    rw [decide_eq_false hne]

/-- Witness for C4: a matching header verifies, a low-bit flip in the
digest is rejected, a `sha1=` header is rejected, and a one-bit body
change (byte 97 to 96) is rejected because it changes the HMAC. -/
theorem verify_signature_behaviour_witness :
    verify_github_signature [107, 101, 121]
      (sigMarker ++ hexBytes (hmacSha256 [107, 101, 121] [97])) [97] = .ok true ∧
    verify_github_signature [107, 101, 121]
      (sigMarker ++ flipBitAt 0 0 (hexBytes (hmacSha256 [107, 101, 121] [97])))
      [97] = .ok false ∧
    verify_github_signature [107, 101, 121]
      ("sha1=0a".data.map Char.toNat) [97] = .ok false ∧
    verify_github_signature [] (sigMarker ++ hexBytes (hmacSha256 [] [97]))
      [96] = .ok false :=
  ⟨verify_signature_behaviour.1 [107, 101, 121] [97],
   verify_signature_behaviour.2.2.1 [107, 101, 121] [97] 0 0 (by decide) (by decide),
   verify_signature_behaviour.2.2.2.1 [107, 101, 121]
     ("sha1=0a".data.map Char.toNat) [97] (by decide),
   verify_signature_behaviour.2.2.2.2 [] [97] [96] (by decide)⟩

/-- Counterexample for C4 as stated: the signature built from the true
digest is accepted, but flipping the single top bit of its first hex
character makes `verify_github_signature` raise a TypeError (modelled as
`Except.error`) from `hmac.compare_digest` on the now non-ASCII digest —
not return false as the claim requires for any single bit flip and for
any malformed header. -/
theorem verify_signature_nonascii_flip_cex :
    verify_github_signature []
      (sigMarker ++ hexBytes (hmacSha256 [] [])) [] = .ok true ∧
    verify_github_signature []
      (sigMarker ++ flipBitAt 0 7 (hexBytes (hmacSha256 [] []))) [] =
      .error () := by
  constructor <;> decide

/-- The deduplication loop returns a sublist of its input. -/
theorem dedupLower_sublist :
    ∀ (l : List (List Char)) (seen : List (List Char)),
      (dedupLower seen l).Sublist l := by
  intro l
  induction l with
  | nil => intro seen; simp [dedupLower]
  | cons c t ih =>
    intro seen
    unfold dedupLower
    by_cases h : lowerL c ∈ seen
    · simp only [h, if_true]
      exact (ih seen).cons c
    · simp only [h, if_false]
      exact (ih (lowerL c :: seen)).cons₂ c

/-- Elements surviving the deduplication loop were not previously seen. -/
theorem dedupLower_lower_notmem :
    ∀ (l : List (List Char)) (seen : List (List Char)) (c : List Char),
      c ∈ dedupLower seen l → lowerL c ∉ seen := by
  intro l
  induction l with
  | nil => intro seen c hc; simp [dedupLower] at hc
  | cons x t ih =>
    intro seen c hc
    unfold dedupLower at hc
    by_cases h : lowerL x ∈ seen
    · rw [if_pos h] at hc
      exact ih seen c hc
    · rw [if_neg h] at hc
      rcases List.mem_cons.mp hc with rfl | hc
      · exact h
      · have := ih _ c hc
        intro hmem
        exact this (List.mem_cons_of_mem _ hmem)

/-- The deduplication loop leaves pairwise distinct lowercased items. -/
theorem dedupLower_pairwise :
    ∀ (l : List (List Char)) (seen : List (List Char)),
      (dedupLower seen l).Pairwise (fun a b => lowerL a ≠ lowerL b) := by
  intro l
  induction l with
  | nil => intro seen; simp [dedupLower]
  | cons x t ih =>
    intro seen
    unfold dedupLower
    by_cases h : lowerL x ∈ seen
    · simp only [h, if_true]
      exact ih seen
    · simp only [h, if_false]
      refine List.Pairwise.cons ?_ (ih (lowerL x :: seen))
      intro b hb
      have := dedupLower_lower_notmem t (lowerL x :: seen) b hb
      intro heq
      exact this (by rw [← heq]; exact List.mem_cons_self _ _)

/-- Every input item has a case-insensitive representative in the output
of the deduplication loop. -/
theorem dedupLower_complete :
    ∀ (l : List (List Char)) (seen : List (List Char)) (c : List Char),
      c ∈ l → lowerL c ∉ seen →
      ∃ d ∈ dedupLower seen l, lowerL d = lowerL c := by
  intro l
  induction l with
  | nil => intro seen c hc; simp at hc
  | cons x t ih =>
    intro seen c hc hns
    unfold dedupLower
    by_cases h : lowerL x ∈ seen
    · simp only [h, if_true]
      rcases List.mem_cons.mp hc with rfl | hc
      · exact absurd h hns
      · exact ih seen c hc hns
    · simp only [h, if_false]
      rcases List.mem_cons.mp hc with rfl | hc
      · exact ⟨c, List.mem_cons_self _ _, rfl⟩
      · by_cases heq : lowerL c = lowerL x
        · exact ⟨x, List.mem_cons_self _ _, heq.symm⟩
        · have hns2 : lowerL c ∉ lowerL x :: seen := by
            intro hmem
            rcases List.mem_cons.mp hmem with h1 | h1
            · exact heq h1
            · exact hns h1
          obtain ⟨d, hd, hde⟩ := ih (lowerL x :: seen) c hc hns2
          exact ⟨d, List.mem_cons_of_mem _ hd, hde⟩

/-- C8 (amended).  The extraction output is the raw extracted items
restricted to those of length strictly greater than ten (an item of
exactly ten characters is dropped), deduplicated case-insensitively while
preserving first-seen order: the result is a sublist of the filtered raw
items, its lowercased items are pairwise distinct, and every filtered raw
item has a case-insensitive representative in the result. -/
theorem extract_criteria_postprocess (body : List Char) :
    (extractCriteriaL body).Sublist
      ((rawCriteria body).filter (fun c => decide (10 < c.length))) ∧
    (∀ c ∈ extractCriteriaL body,
      c ∈ (rawCriteria body).filter (fun c => decide (10 < c.length))) ∧
    (extractCriteriaL body).Pairwise (fun a b => lowerL a ≠ lowerL b) ∧
    (∀ c ∈ (rawCriteria body).filter (fun c => decide (10 < c.length)),
      ∃ d ∈ extractCriteriaL body, lowerL d = lowerL c) := by
  by_cases hb : body.isEmpty
  · have hbody : body = [] := List.isEmpty_iff.mp hb
    subst hbody
    have h1 : extractCriteriaL [] = [] := rfl
    have h2 : rawCriteria ([] : List Char) = [] := by decide
    rw [h1, h2]
    exact ⟨by simp, by simp, by simp, by simp⟩
  · have hex : extractCriteriaL body =
        dedupLower [] ((rawCriteria body).filter (fun c => decide (10 < c.length))) := by
      unfold extractCriteriaL
      rw [if_neg (by simp [hb])]
    rw [hex]
    refine ⟨dedupLower_sublist _ _, ?_, dedupLower_pairwise _ _, ?_⟩
    · intro c hc
      exact (dedupLower_sublist _ _).subset hc
    · intro c hc
      exact dedupLower_complete _ [] c hc (by simp)

/-- Witness for C8: Scenario A's body, where both bullets survive the
length filter and deduplication. -/
theorem extract_criteria_postprocess_witness :
    (extractCriteriaL "## Acceptance Criteria\n- Must validate email format\n- Should show errors".data).Sublist
      ((rawCriteria "## Acceptance Criteria\n- Must validate email format\n- Should show errors".data).filter
        (fun c => decide (10 < c.length))) ∧
    (∃ d ∈ extractCriteriaL "## Acceptance Criteria\n- Must validate email format\n- Should show errors".data,
      lowerL d = lowerL "Must validate email format".data) :=
  ⟨(extract_criteria_postprocess _).1,
   (extract_criteria_postprocess _).2.2.2 "Must validate email format".data (by decide)⟩

/-- Counterexample for C8 as stated: the raw extraction of this body is
exactly the ten-character item `must do it`, which the claim keeps but the
code drops — the returned list is empty. -/
theorem extract_criteria_len_boundary_cex :
    rawCriteria "## Requirements\n- must do it".data = ["must do it".data] ∧
    ("must do it".data).length = 10 ∧
    extract_acceptance_criteria "## Requirements\n- must do it" = [] := by
  refine ⟨by decide, by decide, by decide⟩

/-- Stripping only removes characters. -/
theorem mem_pyStrip {x : Char} {l : List Char} (h : x ∈ pyStrip l) : x ∈ l := by
  unfold pyStrip at h
  rw [List.mem_reverse] at h
  have h2 := (List.dropWhile_suffix pyWs).subset h
  rw [List.mem_reverse] at h2
  exact (List.dropWhile_suffix pyWs).subset h2

/-- Dropping a prefix never lengthens a list. -/
theorem dropWhile_length_le (p : Char → Bool) (l : List Char) :
    (l.dropWhile p).length ≤ l.length :=
  (List.dropWhile_suffix p).sublist.length_le

/-- Stripping never lengthens a list. -/
theorem pyStrip_length_le (l : List Char) : (pyStrip l).length ≤ l.length := by
  unfold pyStrip
  rw [List.length_reverse]
  calc ((l.dropWhile pyWs).reverse.dropWhile pyWs).length
      ≤ (l.dropWhile pyWs).reverse.length := dropWhile_length_le _ _
    _ = (l.dropWhile pyWs).length := List.length_reverse _
    _ ≤ l.length := dropWhile_length_le _ _

/-- Stripping a list with a whitespace head shortens it. -/
theorem pyStrip_length_lt_of_ws_head (c : Char) (t : List Char)
    (h : pyWs c = true) : (pyStrip (c :: t)).length < (c :: t).length := by
  unfold pyStrip
  rw [List.length_reverse]
  have h0 : (c :: t).dropWhile pyWs = t.dropWhile pyWs := by
    rw [List.dropWhile_cons, if_pos h]
  rw [h0]
  calc ((t.dropWhile pyWs).reverse.dropWhile pyWs).length
      ≤ (t.dropWhile pyWs).reverse.length := dropWhile_length_le _ _
    _ = (t.dropWhile pyWs).length := List.length_reverse _
    _ ≤ t.length := dropWhile_length_le _ _
    _ < (c :: t).length := by simp

/-- A fixed point of stripping has no whitespace head. -/
theorem stripped_head_not_ws {c : Char} {t : List Char}
    (h : pyStrip (c :: t) = c :: t) : pyWs c = false := by
  by_contra hc
  rw [Bool.not_eq_false] at hc
  have := pyStrip_length_lt_of_ws_head c t hc
  rw [h] at this
  omega

/-- Dropping from a list whose head fails the predicate is the identity. -/
theorem dropWhile_eq_self_head (p : Char → Bool) (l : List Char)
    (h : ∀ c t, l = c :: t → p c = false) : l.dropWhile p = l := by
  cases l with
  | nil => rfl
  | cons c t => rw [List.dropWhile_cons, if_neg (by simp [h c t rfl])]

/-- The head of a `dropWhile` result fails the predicate. -/
theorem head_dropWhile_not (p : Char → Bool) :
    ∀ (l : List Char) (c : Char) (t : List Char),
      l.dropWhile p = c :: t → p c = false := by
  intro l
  induction l with
  | nil => intro c t h; simp at h
  | cons a s ih =>
    intro c t h
    rw [List.dropWhile_cons] at h
    by_cases ha : p a = true
    · rw [if_pos ha] at h
      exact ih c t h
    · rw [if_neg ha] at h
      cases h
      exact Bool.not_eq_true _ |>.mp ha

/-- A nonempty `dropWhile` result keeps the last element. -/
theorem getLast?_dropWhile (p : Char → Bool) (l : List Char)
    (h : l.dropWhile p ≠ []) : (l.dropWhile p).getLast? = l.getLast? := by
  obtain ⟨pre, hpre⟩ := List.dropWhile_suffix p (l := l)
  conv_rhs => rw [← hpre]
  rw [List.getLast?_append_of_ne_nil _ h]

/-- Stripping is idempotent. -/
theorem pyStrip_idem (l : List Char) : pyStrip (pyStrip l) = pyStrip l := by
  by_cases hnil : pyStrip l = []
  · rw [hnil]; rfl
  · have hBne : (l.dropWhile pyWs).reverse.dropWhile pyWs ≠ [] := by
      intro hcon
      apply hnil
      show ((l.dropWhile pyWs).reverse.dropWhile pyWs).reverse = []
      rw [hcon]
      rfl
    have hAne : l.dropWhile pyWs ≠ [] := by
      intro hcon
      apply hBne
      rw [hcon]
      rfl
    have hstep1 : ((l.dropWhile pyWs).reverse.dropWhile pyWs).reverse.dropWhile pyWs =
        ((l.dropWhile pyWs).reverse.dropWhile pyWs).reverse := by
      apply dropWhile_eq_self_head
      intro c t hct
      have hc : ((l.dropWhile pyWs).reverse.dropWhile pyWs).reverse.head? = some c := by
        rw [hct]; rfl
      rw [List.head?_reverse] at hc
      rw [getLast?_dropWhile pyWs _ hBne] at hc
      cases hA2 : l.dropWhile pyWs with
      | nil => exact absurd hA2 hAne
      | cons a s =>
        have hac : a = c := by
          rw [hA2, List.reverse_cons, List.getLast?_concat] at hc
          exact Option.some_inj.mp hc
        rw [← hac]
        exact head_dropWhile_not pyWs l a s hA2
    have hout : pyStrip (pyStrip l) =
        (((pyStrip l).dropWhile pyWs).reverse.dropWhile pyWs).reverse := rfl
    have hps : pyStrip l = ((l.dropWhile pyWs).reverse.dropWhile pyWs).reverse := rfl
    rw [hout, hps, hstep1, List.reverse_reverse, List.dropWhile_idempotent]

/-- Every capture a scan produces comes from a successful match. -/
theorem scanPattern_mem {matchAt : List Char → Option (List Char × Nat)}
    {P : List Char → Prop}
    (hm : ∀ s cap k, matchAt s = some (cap, k) → P cap) :
    ∀ (l : List Char) (n : Nat) (b : Bool),
      ∀ cap ∈ scanPattern matchAt l n b, P cap := by
  intro l
  induction l with
  | nil => intro n b cap hc; simp [scanPattern] at hc
  | cons c rest ih =>
    intro n b cap hc
    cases n with
    | succ m =>
      rw [show scanPattern matchAt (c :: rest) (m + 1) b =
        scanPattern matchAt rest m (c = '\n') from rfl] at hc
      exact ih m _ cap hc
    | zero =>
      cases b with
      | false =>
        rw [show scanPattern matchAt (c :: rest) 0 false =
          scanPattern matchAt rest 0 (c = '\n') from rfl] at hc
        exact ih 0 _ cap hc
      | true =>
        rw [show scanPattern matchAt (c :: rest) 0 true =
          (match matchAt (c :: rest) with
           | some (cap0, consumed) =>
             cap0 :: scanPattern matchAt rest (consumed - 1) (c = '\n')
           | none => scanPattern matchAt rest 0 (c = '\n')) from rfl] at hc
        cases hma : matchAt (c :: rest) with
        | none =>
          rw [hma] at hc
          exact ih 0 _ cap hc
        | some pr =>
          obtain ⟨cap0, k0⟩ := pr
          rw [hma] at hc
          rcases List.mem_cons.mp hc with heq | hc
          · subst heq
            exact hm (c :: rest) cap k0 hma
          · exact ih _ _ cap hc

/-- Captures of the plain bullet pattern contain no newline. -/
theorem bulletAt_no_newline (s cap : List Char) (k : Nat)
    (h : bulletAt s = some (cap, k)) : '\n' ∉ cap := by
  unfold bulletAt at h
  split at h
  · exact absurd h (by simp)
  · split at h
    · split at h
      · exact absurd h (by simp)
      · split at h
        · split at h
          · split at h
            · exact absurd h (by simp)
            · rename_i hlc
              injection Option.some_inj.mp h with h1 h2
              rw [← h1]
              intro hmem
              exact hlc (List.mem_singleton.mp hmem).symm
          · exact absurd h (by simp)
        · injection Option.some_inj.mp h with h1 h2
          rw [← h1]
          intro hmem
          have := List.mem_takeWhile_imp hmem
          simp at this
    · exact absurd h (by simp)

/-- Captures of the fallback pattern contain no newline. -/
theorem fallbackAt_no_newline (s cap : List Char) (k : Nat)
    (h : fallbackAt s = some (cap, k)) : '\n' ∉ cap := by
  unfold fallbackAt at h
  split at h
  · exact absurd h (by simp)
  · split at h
    · split at h
      · exact absurd h (by simp)
      · split at h
        · exact absurd h (by simp)
        · split at h
          · injection Option.some_inj.mp h with h1 h2
            rw [← h1]
            intro hmem
            have := List.mem_takeWhile_imp hmem
            simp at this
          · split at h
            · split at h
              · split at h
                · exact absurd h (by simp)
                · rename_i hlc
                  injection Option.some_inj.mp h with h1 h2
                  rw [← h1]
                  intro hmem
                  rcases List.mem_cons.mp hmem with heq | hmem
                  · exact hlc heq.symm
                  · have := List.mem_takeWhile_imp hmem
                    simp at this
              · exact absurd h (by simp)
            · exact absurd h (by simp)
    · exact absurd h (by simp)

/-- The pattern phase is empty or the processed bullets of some content. -/
theorem patTryList_shape :
    ∀ (kwms : List (List Char → Option (List Char))) (body : List Char),
      patTryList kwms body = [] ∨
      ∃ content : List Char,
        patTryList kwms body =
          ((scanPattern bulletAt content 0 true).map pyStrip).filter
            (fun b => !b.isEmpty) := by
  intro kwms
  induction kwms with
  | nil => intro body; left; rfl
  | cons kwm rest ih =>
    intro body
    unfold patTryList
    cases hs : searchHeader kwm body with
    | none => exact ih body
    | some g =>
      dsimp only
      by_cases hr : (scanPattern bulletAt (pyStrip g) 0 true).isEmpty
      · rw [if_pos hr]
        exact ih body
      · rw [if_neg hr]
        exact Or.inr ⟨pyStrip g, rfl⟩

/-- The raw criteria are always stripped non-empty captures of newline-free
matches: the scan source and the processing shape are uniform across the
pattern phase and the fallback. -/
theorem rawCriteria_shape (body : List Char) :
    ∃ src : List (List Char), (∀ m ∈ src, '\n' ∉ m) ∧
      rawCriteria body = (src.map pyStrip).filter (fun m => !m.isEmpty) := by
  unfold rawCriteria
  rcases patTryList_shape [kwMatchACri, kwMatchAC, kwMatchReq] body with hp | ⟨content, hp⟩
  · rw [hp]
    refine ⟨scanPattern fallbackAt body 0 true, ?_, rfl⟩
    intro m hm
    exact scanPattern_mem (fun s cap k h => fallbackAt_no_newline s cap k h)
      body 0 true m hm
  · rw [hp]
    by_cases hempty : (((scanPattern bulletAt content 0 true).map pyStrip).filter
        (fun b => !b.isEmpty)).isEmpty
    · rw [if_pos hempty]
      refine ⟨scanPattern fallbackAt body 0 true, ?_, rfl⟩
      intro m hm
      exact scanPattern_mem (fun s cap k h => fallbackAt_no_newline s cap k h)
        body 0 true m hm
    · rw [if_neg hempty]
      refine ⟨scanPattern bulletAt content 0 true, ?_, rfl⟩
      intro m hm
      exact scanPattern_mem (fun s cap k h => bulletAt_no_newline s cap k h)
        content 0 true m hm

/-- Items of the extractor output are long, non-empty, newline-free and
fixed points of stripping. -/
theorem extract_items_props (body : List Char) :
    ∀ c ∈ extractCriteriaL body,
      10 < c.length ∧ c ≠ [] ∧ '\n' ∉ c ∧ pyStrip c = c := by
  intro c hc
  by_cases hb : body.isEmpty
  · rw [show extractCriteriaL body = [] by
      unfold extractCriteriaL; rw [if_pos hb]] at hc
    simp at hc
  · rw [show extractCriteriaL body =
      dedupLower [] ((rawCriteria body).filter (fun c => decide (10 < c.length))) by
      unfold extractCriteriaL; rw [if_neg hb]] at hc
    have hmem := (dedupLower_sublist _ _).subset hc
    have hlen : 10 < c.length := by
      have := List.of_mem_filter hmem
      simpa using this
    have hraw : c ∈ rawCriteria body := List.mem_of_mem_filter hmem
    obtain ⟨src, hsrc, hshape⟩ := rawCriteria_shape body
    rw [hshape] at hraw
    have hne : ¬c.isEmpty := by
      have := List.of_mem_filter hraw
      simpa using this
    have hmap := List.mem_of_mem_filter hraw
    rcases List.mem_map.mp hmap with ⟨m, hmmem, hmeq⟩
    refine ⟨hlen, by simpa using hne, ?_, ?_⟩
    · intro hnl
      rw [← hmeq] at hnl
      exact hsrc m hmmem (mem_pyStrip hnl)
    · rw [← hmeq]
      exact pyStrip_idem m

/-- Taking while over an all-satisfying prefix passes through. -/
theorem takeWhile_append_all (p : Char → Bool) :
    ∀ (x y : List Char), (∀ c ∈ x, p c = true) →
      (x ++ y).takeWhile p = x ++ y.takeWhile p := by
  intro x
  induction x with
  | nil => intro y _; simp
  | cons c t ih =>
    intro y h
    rw [List.cons_append, List.takeWhile_cons,
      if_pos (h c (List.mem_cons_self _ _)), ih y
        (fun d hd => h d (List.mem_cons_of_mem _ hd)), List.cons_append]

/-- The line-start tracker stays false over a newline-free chunk. -/
theorem foldl_nl_false :
    ∀ (l : List Char), '\n' ∉ l → ∀ (b : Bool),
      l.foldl (fun _ c => decide (c = '\n')) b = (if l = [] then b else false) := by
  intro l
  induction l with
  | nil => intro _ b; simp
  | cons c t ih =>
    intro hnl b
    rw [List.foldl_cons, ih (fun hmem => hnl (List.mem_cons_of_mem _ hmem))]
    have hc : decide (c = '\n') = false :=
      decide_eq_false (fun hcon => hnl (hcon ▸ List.mem_cons_self _ _))
    rw [hc]
    simp

/-- Skipping a consumed region advances the scan to its end, with the
line-start flag determined by the last consumed character. -/
theorem scanPattern_skip (matchAt : List Char → Option (List Char × Nat)) :
    ∀ (pre rest : List Char) (b : Bool),
      scanPattern matchAt (pre ++ rest) pre.length b =
        scanPattern matchAt rest 0
          (pre.foldl (fun _ c => decide (c = '\n')) b) := by
  intro pre
  induction pre with
  | nil => intro rest b; rfl
  | cons c t ih =>
    intro rest b
    rw [show scanPattern matchAt ((c :: t) ++ rest) (c :: t).length b =
      scanPattern matchAt (t ++ rest) t.length (decide (c = '\n')) from rfl]
    rw [ih rest (decide (c = '\n'))]
    rfl

/-- The fallback pattern on a rendered bullet line `- item` followed by
nothing or a newline captures exactly the item and consumes the line. -/
theorem fallbackAt_render_line (x tail : List Char) (h0 : x ≠ [])
    (hhead : ∀ c t, x = c :: t → pyWs c = false)
    (hnl : '\n' ∉ x) (hkw : kwOccMid x = true)
    (htail : tail = [] ∨ ∃ r, tail = '\n' :: r) :
    fallbackAt ('-' :: ' ' :: (x ++ tail)) = some (x, x.length + 2) := by
  obtain ⟨xh, xt, rfl⟩ : ∃ c t, x = c :: t := by
    cases x with
    | nil => exact absurd rfl h0
    | cons c t => exact ⟨c, t, rfl⟩
  have hxh : pyWs xh = false := hhead xh xt rfl
  have htake0 : ('-' :: ' ' :: ((xh :: xt) ++ tail)).takeWhile pyWs = [] := by
    rw [List.takeWhile_cons, if_neg (by decide)]
  have hw1 : (' ' :: ((xh :: xt) ++ tail)).takeWhile pyWs = [' '] := by
    rw [List.takeWhile_cons, if_pos (by decide), List.cons_append,
      List.takeWhile_cons, if_neg (by simp [hxh])]
  have hc0 : ((xh :: xt) ++ tail).takeWhile (fun c => decide (c ≠ '\n')) =
      xh :: xt := by
    have hall : ∀ c ∈ xh :: xt, (decide (c ≠ '\n')) = true := fun c hc =>
      decide_eq_true (fun hcon => hnl (by rw [← hcon]; exact hc))
    rw [takeWhile_append_all (fun c => decide (c ≠ '\n')) (xh :: xt) tail hall]
    rcases htail with rfl | ⟨r, rfl⟩
    · simp
    · rw [List.takeWhile_cons, if_neg (by simp)]
      simp
  unfold fallbackAt
  rw [htake0, List.length_nil, List.drop_zero]
  dsimp only
  rw [if_pos (show isBullet '-' = true from rfl)]
  rw [hw1]
  rw [if_neg (by decide)]
  rw [show ([' '] : List Char).length = 1 from rfl]
  rw [show List.drop 1 (' ' :: ((xh :: xt) ++ tail)) = (xh :: xt) ++ tail from rfl]
  rw [show ((xh :: xt) ++ tail).isEmpty = false from by rw [List.cons_append]; rfl]
  rw [if_neg (by simp)]
  rw [hc0, if_pos hkw]
  have harith : 0 + 1 + 1 + (xh :: xt).length = (xh :: xt).length + 2 := by omega
  rw [harith]

/-- The fallback scan over rendered bullet lines recovers the items, one
capture per line, provided every item is non-empty, newline-free, starts
with a non-whitespace character and contains a keyword occurrence away
from the edges. -/
theorem fallback_scan_render :
    ∀ (items : List (List Char)),
      (∀ c ∈ items, c ≠ [] ∧ (∀ ch t, c = ch :: t → pyWs ch = false) ∧
        '\n' ∉ c ∧ kwOccMid c = true) →
      scanPattern fallbackAt (renderBullets items) 0 true = items := by
  intro items
  induction items with
  | nil => intro _; rfl
  | cons x rest ih =>
    intro h
    obtain ⟨hx0, hxh, hxnl, hxkw⟩ := h x (List.mem_cons_self _ _)
    cases rest with
    | nil =>
      show scanPattern fallbackAt ('-' :: ' ' :: x) 0 true = [x]
      have hm := fallbackAt_render_line x [] hx0 hxh hxnl hxkw (Or.inl rfl)
      rw [List.append_nil] at hm
      rw [show scanPattern fallbackAt ('-' :: ' ' :: x) 0 true =
        (match fallbackAt ('-' :: ' ' :: x) with
         | some (cap0, consumed) =>
           cap0 :: scanPattern fallbackAt (' ' :: x) (consumed - 1)
             (decide ('-' = '\n'))
         | none => scanPattern fallbackAt (' ' :: x) 0 (decide ('-' = '\n')))
        from rfl]
      rw [hm]
      dsimp only
      have hlen : x.length + 2 - 1 = ((' ' :: x) : List Char).length := by simp
      rw [hlen]
      have hskip := scanPattern_skip fallbackAt (' ' :: x) [] (decide ('-' = '\n'))
      rw [List.append_nil] at hskip
      rw [hskip]
      rfl
    | cons y rest2 =>
      show scanPattern fallbackAt
        (('-' :: ' ' :: x) ++ '\n' :: renderBullets (y :: rest2)) 0 true =
        x :: y :: rest2
      rw [show ('-' :: ' ' :: x) ++ '\n' :: renderBullets (y :: rest2) =
        '-' :: ' ' :: (x ++ '\n' :: renderBullets (y :: rest2)) from rfl]
      have hm := fallbackAt_render_line x ('\n' :: renderBullets (y :: rest2))
        hx0 hxh hxnl hxkw (Or.inr ⟨_, rfl⟩)
      rw [show scanPattern fallbackAt
        ('-' :: ' ' :: (x ++ '\n' :: renderBullets (y :: rest2))) 0 true =
        (match fallbackAt ('-' :: ' ' :: (x ++ '\n' :: renderBullets (y :: rest2))) with
         | some (cap0, consumed) =>
           cap0 :: scanPattern fallbackAt
             (' ' :: (x ++ '\n' :: renderBullets (y :: rest2))) (consumed - 1)
             (decide ('-' = '\n'))
         | none => scanPattern fallbackAt
             (' ' :: (x ++ '\n' :: renderBullets (y :: rest2))) 0
             (decide ('-' = '\n'))) from rfl]
      rw [hm]
      dsimp only
      congr 1
      have hlen : x.length + 2 - 1 = ((' ' :: x) : List Char).length := by simp
      rw [show (' ' :: (x ++ '\n' :: renderBullets (y :: rest2))) =
        (' ' :: x) ++ '\n' :: renderBullets (y :: rest2) from rfl, hlen]
      rw [scanPattern_skip fallbackAt (' ' :: x) ('\n' :: renderBullets (y :: rest2))
        (decide ('-' = '\n'))]
      rw [foldl_nl_false (' ' :: x)
        (by intro hmem; rcases List.mem_cons.mp hmem with heq | hmem
            · exact absurd heq.symm (by decide)
            · exact hxnl hmem) (decide ('-' = '\n'))]
      rw [if_neg (by simp)]
      rw [show scanPattern fallbackAt ('\n' :: renderBullets (y :: rest2)) 0 false =
        scanPattern fallbackAt (renderBullets (y :: rest2)) 0
          (decide ('\n' = '\n')) from rfl]
      rw [show (decide ('\n' = '\n')) = true from rfl]
      exact ih (fun c hc => h c (List.mem_cons_of_mem _ hc))

/-- A pattern phase in which no section pattern matches yields nothing. -/
theorem patTryList_none :
    ∀ (kwms : List (List Char → Option (List Char))) (body : List Char),
      (∀ kwm ∈ kwms, searchHeader kwm body = none) →
      patTryList kwms body = [] := by
  intro kwms
  induction kwms with
  | nil => intro body _; rfl
  | cons kwm rest ih =>
    intro body h
    unfold patTryList
    rw [h kwm (List.mem_cons_self _ _)]
    exact ih body (fun k hk => h k (List.mem_cons_of_mem _ hk))

/-- Deduplication is the identity on lists that are already pairwise
case-insensitively distinct and disjoint from the seen set. -/
theorem dedupLower_id :
    ∀ (l seen : List (List Char)),
      l.Pairwise (fun a b => lowerL a ≠ lowerL b) →
      (∀ c ∈ l, lowerL c ∉ seen) → dedupLower seen l = l := by
  intro l
  induction l with
  | nil => intro seen _ _; rfl
  | cons x t ih =>
    intro seen hpw hns
    obtain ⟨hhead, htail⟩ := List.pairwise_cons.mp hpw
    unfold dedupLower
    rw [if_neg (hns x (List.mem_cons_self _ _))]
    have hseen2 : ∀ c ∈ t, lowerL c ∉ lowerL x :: seen := by
      intro c hc hmem
      rcases List.mem_cons.mp hmem with heq | hmem2
      · exact hhead c hc heq.symm
      · exact hns c (List.mem_cons_of_mem _ hc) hmem2
    rw [ih (lowerL x :: seen) htail hseen2]

/-- C5 (amended).  Criteria extraction is idempotent on its own output
provided (a) every extracted item contains a requirement keyword with at
least one character before it and at least one after it — so the fallback
bullet pattern matches its rendered line — and (b) the rendered body
triggers none of the three section-header patterns.  Without these
conditions re-extraction can differ (see the counterexample). -/
theorem extract_criteria_conditional_idempotent (body : String)
    (hkw : ∀ c ∈ extractCriteriaL body.data, kwOccMid c = true)
    (hA : searchHeader kwMatchACri (renderBullets (extractCriteriaL body.data)) = none)
    (hB : searchHeader kwMatchAC (renderBullets (extractCriteriaL body.data)) = none)
    (hC : searchHeader kwMatchReq (renderBullets (extractCriteriaL body.data)) = none) :
    extractCriteriaL (renderBullets (extractCriteriaL body.data)) =
      extractCriteriaL body.data := by
  have hprops := extract_items_props body.data
  have hunfold : ∀ (b : List Char), ¬ b.isEmpty = true →
      extractCriteriaL b = dedupLower []
        ((rawCriteria b).filter (fun c => decide (10 < c.length))) := by
    intro b hb
    unfold extractCriteriaL
    rw [if_neg hb]
  by_cases hLnil : extractCriteriaL body.data = []
  · rw [hLnil]
    rfl
  · have hrender_ne : renderBullets (extractCriteriaL body.data) ≠ [] := by
      cases hL : extractCriteriaL body.data with
      | nil => exact absurd hL hLnil
      | cons x xs =>
        cases xs with
        | nil => simp [renderBullets]
        | cons y ys => simp [renderBullets]
    rw [hunfold (renderBullets (extractCriteriaL body.data))
      (by simpa [List.isEmpty_iff] using hrender_ne)]
    have hpat : patTryList [kwMatchACri, kwMatchAC, kwMatchReq]
        (renderBullets (extractCriteriaL body.data)) = [] := by
      apply patTryList_none
      intro kwm hkwm
      rcases List.mem_cons.mp hkwm with rfl | hkwm2
      · exact hA
      · rcases List.mem_cons.mp hkwm2 with rfl | hkwm3
        · exact hB
        · rcases List.mem_cons.mp hkwm3 with rfl | hkwm4
          · exact hC
          · simp at hkwm4
    have hraw : rawCriteria (renderBullets (extractCriteriaL body.data)) =
        ((scanPattern fallbackAt (renderBullets (extractCriteriaL body.data)) 0
          true).map pyStrip).filter (fun m => !m.isEmpty) := by
      unfold rawCriteria
      rw [hpat]
      rfl
    have hscan : scanPattern fallbackAt (renderBullets (extractCriteriaL body.data))
        0 true = extractCriteriaL body.data := by
      apply fallback_scan_render
      intro c hc
      obtain ⟨hlen, hne, hnl, hstrip⟩ := hprops c hc
      refine ⟨hne, ?_, hnl, hkw c hc⟩
      intro ch t hct
      exact stripped_head_not_ws (by rw [← hct]; exact hstrip)
    rw [hraw, hscan]
    have hmap : (extractCriteriaL body.data).map pyStrip =
        extractCriteriaL body.data := by
      rw [List.map_congr_left (fun c hc => (hprops c hc).2.2.2 :
        ∀ c ∈ extractCriteriaL body.data, pyStrip c = id c)]
      exact List.map_id _
    rw [hmap]
    have hfil1 : (extractCriteriaL body.data).filter (fun m => !m.isEmpty) =
        extractCriteriaL body.data :=
      List.filter_eq_self.mpr (fun c hc => by simpa using (hprops c hc).2.1)
    rw [hfil1]
    have hfil2 : (extractCriteriaL body.data).filter
        (fun c => decide (10 < c.length)) = extractCriteriaL body.data :=
      List.filter_eq_self.mpr (fun c hc => decide_eq_true (hprops c hc).1)
    rw [hfil2]
    apply dedupLower_id
    · have hbody_ne : ¬ body.data.isEmpty = true := by
        intro hcon
        apply hLnil
        unfold extractCriteriaL
        rw [if_pos hcon]
      rw [hunfold body.data hbody_ne]
      exact dedupLower_pairwise _ _
    · intro c _
      simp

/-- Witness for C5: a body whose single extracted item satisfies both
conditions, so re-extracting from its rendering gives the same list. -/
theorem extract_criteria_conditional_idempotent_witness :
    extractCriteriaL (renderBullets
      (extractCriteriaL "## Requirements\n- It must validate emails".data)) =
      extractCriteriaL "## Requirements\n- It must validate emails".data :=
  extract_criteria_conditional_idempotent "## Requirements\n- It must validate emails"
    (by decide) (by decide) (by decide) (by decide)

/-- Counterexample for C5 as stated: the item extracted from a
`Requirements` section need not contain a requirement keyword, and then
re-extracting from its rendered bullet line finds no section header and no
fallback match — the set of items changes from one item to none. -/
theorem extract_criteria_not_idempotent_cex :
    extract_acceptance_criteria "## Requirements\n- The login page loads fast" =
      ["The login page loads fast"] ∧
    renderBullets
      (extractCriteriaL "## Requirements\n- The login page loads fast".data) =
      "- The login page loads fast".data ∧
    extract_acceptance_criteria "- The login page loads fast" = [] := by
  refine ⟨by decide, by decide, by decide⟩

end AutoQA
